import Mathlib

/-!
Shallow embedding of the geometric core of the darts ray tracer
(ray/box primitives, homogeneous transforms, quad and sphere surfaces,
the naive `SurfaceGroup` linear scan and the BBH acceleration structure),
together with theorems checking the natural-language specification
against this embedding.

Floating-point values are modelled by real numbers; `Ray::maxt` (which
may be IEEE `+inf`) is modelled by `WithTop ℝ`.  Function bodies that
are `put_your_code_here` stubs in the skeleton sources are modelled from
the specification text and are marked `Modelled from the spec:` in their
doc comments; everything else is translated directly from the sources.
-/

open scoped Classical

noncomputable section

namespace Darts

/-- Three-dimensional vector over the reals (models `Vec3f`). -/
structure Vec3 where
  x : ℝ
  y : ℝ
  z : ℝ

/-- Two-dimensional vector over the reals (models `Vec2f`). -/
structure Vec2 where
  x : ℝ
  y : ℝ

namespace Vec3

/-- Componentwise addition. -/
def add (a b : Vec3) : Vec3 := ⟨a.x + b.x, a.y + b.y, a.z + b.z⟩

/-- Componentwise subtraction. -/
def sub (a b : Vec3) : Vec3 := ⟨a.x - b.x, a.y - b.y, a.z - b.z⟩

/-- Scalar multiplication. -/
def smul (s : ℝ) (a : Vec3) : Vec3 := ⟨s * a.x, s * a.y, s * a.z⟩

/-- Dot product. -/
def dot (a b : Vec3) : ℝ := a.x * b.x + a.y * b.y + a.z * b.z

/-- Cross product (models `la::cross`). -/
def cross (a b : Vec3) : Vec3 :=
  ⟨a.y * b.z - a.z * b.y, a.z * b.x - a.x * b.z, a.x * b.y - a.y * b.x⟩

/-- Squared length (models `la::length2`). -/
def length2 (a : Vec3) : ℝ := dot a a

/-- Euclidean length (models `la::length`). -/
def length (a : Vec3) : ℝ := Real.sqrt (length2 a)

/-- Normalization `v / length(v)` (models `la::normalize`). -/
def normalize (a : Vec3) : Vec3 :=
  ⟨a.x / length a, a.y / length a, a.z / length a⟩

/-- Componentwise minimum (models `la::min` on vectors). -/
def vmin (a b : Vec3) : Vec3 := ⟨min a.x b.x, min a.y b.y, min a.z b.z⟩

/-- Componentwise maximum (models `la::max` on vectors). -/
def vmax (a b : Vec3) : Vec3 := ⟨max a.x b.x, max a.y b.y, max a.z b.z⟩

/-- Indexed component access `v[i]`. -/
def nth (v : Vec3) (i : Fin 3) : ℝ :=
  if i = 0 then v.x else if i = 1 then v.y else v.z

theorem ext_iff {a b : Vec3} : a = b ↔ a.x = b.x ∧ a.y = b.y ∧ a.z = b.z := by
  cases a; cases b; simp [mk.injEq]

end Vec3

/-- Extended values for `Ray::maxt`, which is `+inf` for a default ray. -/
abbrev RTop := WithTop ℝ

/-- Ray segment (models `Ray3f`): origin, direction and the parametric
interval `[mint, maxt]`, with `maxt` possibly `+∞`. -/
structure Ray3 where
  o : Vec3
  d : Vec3
  mint : ℝ
  maxt : RTop

namespace Ray3

/-- Ray epsilon constant `0.0001` from `Ray::epsilon`. -/
def epsilon : ℝ := 1 / 10000

/-- Ray constructed from origin and direction only: `Ray3f(o, d)` uses the
default interval `mint = epsilon`, `maxt = +infinity`. -/
def mk' (o d : Vec3) : Ray3 := ⟨o, d, epsilon, ⊤⟩

/-- Position along the ray: `ray(t) = o + t*d` (models `Ray::operator()`). -/
def eval (r : Ray3) (t : ℝ) : Vec3 := r.o.add (Vec3.smul t r.d)

end Ray3

/-- Axis-aligned box (models `Box3f`): `min` and `max` corner. -/
structure Box3 where
  min : Vec3
  max : Vec3

namespace Box3

/-- Largest finite `float`, `std::numeric_limits<float>::max() = 2^128 - 2^104`,
used as the sentinel corner values of a default-constructed box. -/
def fltMax : ℝ := 2 ^ 128 - 2 ^ 104

/-- Default-constructed empty box: `min = numeric_limits::max()` and
`max = numeric_limits::lowest()` per component. -/
def empty : Box3 := ⟨⟨fltMax, fltMax, fltMax⟩, ⟨-fltMax, -fltMax, -fltMax⟩⟩

/-- Box union `enclose(box2)`: componentwise min of mins, max of maxes. -/
def enclose (b : Box3) (b2 : Box3) : Box3 :=
  ⟨Vec3.vmin b.min b2.min, Vec3.vmax b.max b2.max⟩

/-- Enclose a single point (the `enclose(p)` overload). -/
def encloseP (b : Box3) (p : Vec3) : Box3 :=
  ⟨Vec3.vmin b.min p, Vec3.vmax b.max p⟩

/-- A box `is_empty` when some component has `min > max`. -/
def isEmpty (b : Box3) : Prop :=
  b.max.x < b.min.x ∨ b.max.y < b.min.y ∨ b.max.z < b.min.z

/-- Membership of a point in a box, componentwise. -/
def inBox (p : Vec3) (b : Box3) : Prop :=
  b.min.x ≤ p.x ∧ p.x ≤ b.max.x ∧
  b.min.y ≤ p.y ∧ p.y ≤ b.max.y ∧
  b.min.z ≤ p.z ∧ p.z ≤ b.max.z

/-- Componentwise box inclusion: every point of `a` is a point of `b`. -/
def sub (a b : Box3) : Prop :=
  b.min.x ≤ a.min.x ∧ b.min.y ≤ a.min.y ∧ b.min.z ≤ a.min.z ∧
  a.max.x ≤ b.max.x ∧ a.max.y ≤ b.max.y ∧ a.max.z ≤ b.max.z

/-- Box diagonal `max - min` (models `Box::diagonal`). -/
def diagonal (b : Box3) : Vec3 := b.max.sub b.min

/-- Box center `(min + max) / 2` (models `Box::center`; the source's
`is_finite` guard against IEEE infinities is vacuous in the real-number
model, where no coordinate is infinite). -/
def center (b : Box3) : Vec3 :=
  ⟨(b.min.x + b.max.x) / 2, (b.min.y + b.max.y) / 2, (b.min.z + b.max.z) / 2⟩

/-- The box's longest axis (the conventional split-axis choice of §4.5),
with the usual maximum-extent tie-breaking towards the earlier axis. -/
def longestAxis (b : Box3) : Fin 3 :=
  if b.diagonal.y < b.diagonal.x ∧ b.diagonal.z < b.diagonal.x then 0
  else if b.diagonal.z < b.diagonal.y then 1 else 2

end Box3

/-- Homogeneous 4-vector (models `Vec4f`). -/
structure V4 where
  x : ℝ
  y : ℝ
  z : ℝ
  w : ℝ

/-- Column-major 4×4 matrix (models `Mat44f` from linalg): four column
vectors, `c0` the first column. -/
structure Mat44 where
  c0 : V4
  c1 : V4
  c2 : V4
  c3 : V4

namespace V4

/-- Componentwise addition. -/
def add (a b : V4) : V4 := ⟨a.x + b.x, a.y + b.y, a.z + b.z, a.w + b.w⟩

/-- Scalar multiplication. -/
def smul (s : ℝ) (a : V4) : V4 := ⟨s * a.x, s * a.y, s * a.z, s * a.w⟩

/-- First three components of a homogeneous vector (the `xyz()` method). -/
def xyz (a : V4) : Vec3 := ⟨a.x, a.y, a.z⟩

end V4

namespace Mat44

/-- Matrix–vector product for a column-major matrix: linear combination of
the columns (models `la::mul(m, v)`). -/
def mulV (m : Mat44) (v : V4) : V4 :=
  (V4.smul v.x m.c0).add ((V4.smul v.y m.c1).add
    ((V4.smul v.z m.c2).add (V4.smul v.w m.c3)))

/-- Matrix–matrix product (models `la::mul(a, b)`). -/
def mul (a b : Mat44) : Mat44 :=
  ⟨a.mulV b.c0, a.mulV b.c1, a.mulV b.c2, a.mulV b.c3⟩

/-- Matrix transpose. -/
def transpose (m : Mat44) : Mat44 :=
  ⟨⟨m.c0.x, m.c1.x, m.c2.x, m.c3.x⟩,
   ⟨m.c0.y, m.c1.y, m.c2.y, m.c3.y⟩,
   ⟨m.c0.z, m.c1.z, m.c2.z, m.c3.z⟩,
   ⟨m.c0.w, m.c1.w, m.c2.w, m.c3.w⟩⟩

/-- Identity matrix (`la::identity`). -/
def id : Mat44 :=
  ⟨⟨1, 0, 0, 0⟩, ⟨0, 1, 0, 0⟩, ⟨0, 0, 1, 0⟩, ⟨0, 0, 0, 1⟩⟩

end Mat44

/-- Homogeneous coordinate transformation (models `Transform`): the forward
matrix `m` and its explicitly stored inverse `m_inv`. -/
structure Transform where
  m : Mat44
  m_inv : Mat44

namespace Transform

/-- Identity transform (the default `Transform()` constructor). -/
def idT : Transform := ⟨Mat44.id, Mat44.id⟩

/-- Return the inverse transformation: swap the stored matrices. -/
def inverse (t : Transform) : Transform := ⟨t.m_inv, t.m⟩

/-- Concatenation `operator*`: forward matrices multiply in one fixed order
and the stored inverses in the mirrored order. -/
def comp (t1 t2 : Transform) : Transform :=
  ⟨Mat44.mul t1.m t2.m, Mat44.mul t2.m_inv t1.m_inv⟩

/-- Modelled from the spec: `Transform::point` is a `put_your_code_here` stub
in the sources; per §4.2 a point transforms as the homogeneous vector
`(p, 1)` by the forward matrix, with the first three components divided by
the resulting 4th (w) component. -/
def point (t : Transform) (p : Vec3) : Vec3 :=
  let h := t.m.mulV ⟨p.x, p.y, p.z, 1⟩
  ⟨h.x / h.w, h.y / h.w, h.z / h.w⟩

/-- Modelled from the spec: `Transform::vector` is a stub in the sources;
per §4.2 a direction vector transforms as `(v, 0)` by the forward matrix
(linear part only, no translation, no w-divide). -/
def vector (t : Transform) (v : Vec3) : Vec3 :=
  (t.m.mulV ⟨v.x, v.y, v.z, 0⟩).xyz

/-- Modelled from the spec: `Transform::normal` is a stub in the sources;
per §4.2 a normal transforms by the transpose of the inverse matrix applied
to `(n, 0)`, re-normalized. -/
def normal (t : Transform) (n : Vec3) : Vec3 :=
  Vec3.normalize ((t.m_inv.transpose.mulV ⟨n.x, n.y, n.z, 0⟩).xyz)

/-- Modelled from the spec: `Transform::ray` is a `put_your_code_here` stub
in the sources; per §4.2 the origin transforms as a point, the direction as
a vector, and `mint`/`maxt` are preserved unchanged. -/
def ray (t : Transform) (r : Ray3) : Ray3 :=
  ⟨t.point r.o, t.vector r.d, r.mint, r.maxt⟩

/-- Transform a box (models `Transform::box`): an empty box is returned
unchanged, otherwise the union of the 8 transformed corner points. -/
def box (t : Transform) (b : Box3) : Box3 :=
  if b.isEmpty then b
  else
    let p0 : Vec3 := ⟨b.min.x, b.min.y, b.min.z⟩
    let p1 : Vec3 := ⟨b.min.x, b.min.y, b.max.z⟩
    let p2 : Vec3 := ⟨b.min.x, b.max.y, b.min.z⟩
    let p3 : Vec3 := ⟨b.min.x, b.max.y, b.max.z⟩
    let p4 : Vec3 := ⟨b.max.x, b.min.y, b.min.z⟩
    let p5 : Vec3 := ⟨b.max.x, b.min.y, b.max.z⟩
    let p6 : Vec3 := ⟨b.max.x, b.max.y, b.min.z⟩
    let p7 : Vec3 := ⟨b.max.x, b.max.y, b.max.z⟩
    (((((((Box3.mk (t.point p0) (t.point p0)).encloseP (t.point p1)).encloseP
      (t.point p2)).encloseP (t.point p3)).encloseP (t.point p4)).encloseP
      (t.point p5)).encloseP (t.point p6)).encloseP (t.point p7)

end Transform

/-- Intersection record (models `HitInfo`): ray parameter, world-space hit
position, geometric and shading normals, texture coordinates, and the
material at the hit (modelled by an identifier, `none` for `nullptr`). -/
structure HitInfo where
  t : ℝ
  p : Vec3
  gn : Vec3
  sn : Vec3
  uv : Vec2
  mat : Option ℕ

/-- Quad surface (models `Quad`): extents `m_size` (already halved by the
constructor, which stores `size/2`), the local-to-world transform and the
material identifier. -/
structure Quad where
  m_size : Vec2
  xform : Transform
  mat : ℕ

namespace Quad

/-- The ray transformed into the quad's local space,
`tray = m_xform.inverse().ray(ray)` in `Quad::intersect`. -/
def tray (q : Quad) (r : Ray3) : Ray3 := (q.xform.inverse).ray r

/-- The solved plane parameter `t = -o.z / d.z` of `Quad::intersect`. -/
def tsolved (q : Quad) (r : Ray3) : ℝ := -(q.tray r).o.z / (q.tray r).d.z

/-- Ray–quad intersection (models `Quad::intersect`): reject rays parallel
to the local plane, solve `t = -o.z/d.z`, reject local hit points outside
the rectangle and parameters outside `[mint, maxt]`, snap the local hit
point's `z` to exactly 0, then fill the hit record. -/
def intersect (q : Quad) (r : Ray3) : Option HitInfo :=
  let tr := q.tray r
  if tr.d.z = 0 then none
  else
    let t := -tr.o.z / tr.d.z
    let p := tr.eval t
    if q.m_size.x < |p.x| ∨ q.m_size.y < |p.y| then none
    else if t < tr.mint ∨ tr.maxt < (t : RTop) then none
    else
      some { t := t
             p := q.xform.point ⟨p.x, p.y, 0⟩
             gn := Vec3.normalize (q.xform.normal ⟨0, 0, 1⟩)
             sn := Vec3.normalize (q.xform.normal ⟨0, 0, 1⟩)
             uv := ⟨0, 0⟩
             mat := some q.mat }

/-- The hit record is an in/out reference in C++: `Quad::intersect` writes it
only on success and returns the flag, so the full call maps `(ray, hit)` to
the flag and the possibly-updated record. -/
def intersectFull (q : Quad) (r : Ray3) (hit : HitInfo) : Bool × HitInfo :=
  match q.intersect r with
  | some h => (true, h)
  | none => (false, hit)

/-- Local-space bounds of the quad (models `Quad::local_bounds`). -/
def localBounds (q : Quad) : Box3 :=
  ⟨⟨-q.m_size.x - Ray3.epsilon, -q.m_size.y - Ray3.epsilon, -Ray3.epsilon⟩,
   ⟨q.m_size.x + Ray3.epsilon, q.m_size.y + Ray3.epsilon, Ray3.epsilon⟩⟩

/-- World-space bounds (models `XformedSurface::bounds`, which applies
`m_xform` to `local_bounds()`). -/
def bounds (q : Quad) : Box3 := q.xform.box q.localBounds

/-- Solid-angle pdf of sampling the quad (models `Quad::pdf`): re-intersect
along a default-interval ray; on a hit return
`distance² / (cosθ · area)`, else 0. -/
def pdf (q : Quad) (o v : Vec3) : ℝ :=
  match q.intersect (Ray3.mk' o v) with
  | some hit =>
      let area := 4 * Vec3.length (Vec3.cross
        (q.xform.vector ⟨q.m_size.x, 0, 0⟩) (q.xform.vector ⟨0, q.m_size.y, 0⟩))
      let distanceSquared := hit.t * hit.t * Vec3.length2 v
      let cosine := |Vec3.dot v hit.gn / Vec3.length v|
      distanceSquared / (cosine * area)
  | none => 0

end Quad

/-- Sphere surface centered at the local origin (models `Sphere`). -/
structure Sphere where
  radius : ℝ
  xform : Transform
  mat : ℕ

namespace Sphere

/-- Hit record for a local-space sphere hit at parameter `t`: position from
the local ray, geometric normal `position / radius`, shading normal equal to
the geometric normal, both mapped back to world space. -/
def mkHit (s : Sphere) (tr : Ray3) (t : ℝ) : HitInfo :=
  let pl := tr.eval t
  let n : Vec3 := ⟨pl.x / s.radius, pl.y / s.radius, pl.z / s.radius⟩
  { t := t
    p := s.xform.point pl
    gn := Vec3.normalize (s.xform.normal n)
    sn := Vec3.normalize (s.xform.normal n)
    uv := ⟨0, 0⟩
    mat := some s.mat }

/-- Modelled from the spec: `Sphere::intersect` is a `put_your_code_here`
stub in the sources; per §4.3 the quadratic `|o + t d|² = r²` is solved in
local space, the smallest root inside `[mint, maxt]` is chosen (rejecting a
negative discriminant or both roots outside the interval), the position and
the geometric normal `position/r` are computed, and the shading normal
equals the geometric normal. -/
def intersect (s : Sphere) (r : Ray3) : Option HitInfo :=
  let tr := (s.xform.inverse).ray r
  let a := Vec3.dot tr.d tr.d
  let b := 2 * Vec3.dot tr.o tr.d
  let c := Vec3.dot tr.o tr.o - s.radius * s.radius
  let disc := b * b - 4 * a * c
  if disc < 0 then none
  else
    let sq := Real.sqrt disc
    let t1 := (-b - sq) / (2 * a)
    let t2 := (-b + sq) / (2 * a)
    if tr.mint ≤ t1 ∧ (t1 : RTop) ≤ tr.maxt then some (s.mkHit tr t1)
    else if tr.mint ≤ t2 ∧ (t2 : RTop) ≤ tr.maxt then some (s.mkHit tr t2)
    else none

end Sphere

/-- Extended slab-test values: the C++ slab test computes reciprocals of
direction components and relies on IEEE `±∞` arithmetic, so the per-axis
interval endpoints range over `ℝ ∪ {-∞, +∞}`; `NaN` (from `0 · ∞`) is
represented separately as `Option.none` at the producer side. -/
inductive Xr where
  | ninf
  | fin (v : ℝ)
  | pinf

namespace Xr

/-- Strict order on extended values, `-∞ < fin _ < +∞`. -/
def lt : Xr → Xr → Prop
  | ninf, fin _ => True
  | ninf, pinf => True
  | fin a, fin b => a < b
  | fin _, pinf => True
  | _, _ => False

/-- Non-strict order on extended values. -/
def le : Xr → Xr → Prop
  | ninf, _ => True
  | fin a, fin b => a ≤ b
  | fin _, pinf => True
  | pinf, pinf => True
  | _, _ => False

/-- Convert a `maxt` value (`ℝ` or `+∞`) to an extended slab value. -/
def ofTop (m : RTop) : Xr :=
  if h : m = ⊤ then pinf else fin (m.untop h)

end Xr

/-- Product of a finite IEEE value with `+∞`: the sign decides, and
`0 · ∞ = NaN` is `none`. -/
def mulPInf (q : ℝ) : Option Xr :=
  if 0 < q then some Xr.pinf else if q < 0 then some Xr.ninf else none

/-- Per-axis slab endpoints `(t0, t1)` of `Box::intersect`: for a nonzero
direction component these are `(min-o)/d` and `(max-o)/d`, swapped when the
reciprocal is negative; for a zero component the IEEE reciprocal is `+∞`
and the products follow the sign of `min-o` / `max-o`, with `NaN` as `none`. -/
def axisT (mn mx o d : ℝ) : Option Xr × Option Xr :=
  if d = 0 then (mulPInf (mn - o), mulPInf (mx - o))
  else if d < 0 then (some (Xr.fin ((mx - o) / d)), some (Xr.fin ((mn - o) / d)))
  else (some (Xr.fin ((mn - o) / d)), some (Xr.fin ((mx - o) / d)))

/-- The update `minT = t0 > minT ? t0 : minT`; a `NaN` comparison is false,
so `none` leaves the accumulator unchanged. -/
def updMin (cur : Xr) : Option Xr → Xr
  | none => cur
  | some v => if Xr.lt cur v then v else cur

/-- The update `maxT = t1 < maxT ? t1 : maxT`, with the same `NaN` rule. -/
def updMax (cur : Xr) : Option Xr → Xr
  | none => cur
  | some v => if Xr.lt v cur then v else cur

/-- One loop iteration of `Box::intersect`: update the running interval and
return `none` on the early exit `maxT < minT`. -/
def slabAxis (mn mx o d : ℝ) (st : Xr × Xr) : Option (Xr × Xr) :=
  let ts := axisT mn mx o d
  let lo := updMin st.1 ts.1
  let hi := updMax st.2 ts.2
  if Xr.lt hi lo then none else some (lo, hi)

/-- The three-axis slab computation of `Box::intersect`, starting from the
ray's own interval `[mint, maxt]`. -/
def Box3.slab (b : Box3) (r : Ray3) : Option (Xr × Xr) :=
  (slabAxis b.min.x b.max.x r.o.x r.d.x (Xr.fin r.mint, Xr.ofTop r.maxt)).bind
    (fun st => (slabAxis b.min.y b.max.y r.o.y r.d.y st).bind
      (fun st2 => slabAxis b.min.z b.max.z r.o.z r.d.z st2))

/-- Ray–box overlap test (models `Box::intersect`): true when no axis
triggered the early exit. -/
def Box3.hitBy (b : Box3) (r : Ray3) : Prop := (Box3.slab b r).isSome

/-- Abstract leaf primitive as stored in a `SurfaceGroup` / BBH: its
intersection routine and its world-space bounds. -/
structure Prim where
  intersect : Ray3 → Option HitInfo
  bounds : Box3

/-- Well-formedness of a primitive's intersection routine: a reported hit
lies inside the query interval and its position along the ray is inside the
primitive's bounds. -/
def PrimWF (p : Prim) : Prop :=
  ∀ r h, p.intersect r = some h →
    r.mint ≤ h.t ∧ (h.t : RTop) ≤ r.maxt ∧ Box3.inBox (r.eval h.t) p.bounds

/-- Interval consistency of a primitive's intersection routine: for a fixed
origin, direction and `mint` there is one underlying candidate hit, and the
`maxt` bound acts only as a filter on its distance.  This holds for the
system's leaf surfaces: their candidate (plane/root solution) depends only
on the geometry and `mint`, and `maxt` only accepts or rejects it. -/
def PrimTW (p : Prim) : Prop :=
  ∀ o d : Vec3, ∀ mint : ℝ, ∃ res : Option HitInfo, ∀ maxt : RTop,
    p.intersect ⟨o, d, mint, maxt⟩ =
      res.bind (fun h => if (h.t : RTop) ≤ maxt then some h else none)

/-- Closest-hit specification of an intersection result over a primitive
list at a given ray: the result is `none` exactly when every listed
primitive misses the ray, and a reported hit is some listed primitive's hit
of minimal distance among all listed primitives' hits for that ray. -/
def SpecAt (S : List Prim) (res : Option HitInfo) (r : Ray3) : Prop :=
  (res = none ↔ ∀ p ∈ S, p.intersect r = none) ∧
  ∀ h, res = some h →
    (∃ p ∈ S, p.intersect r = some h) ∧
    ∀ q ∈ S, ∀ h2, q.intersect r = some h2 → h.t ≤ h2.t

/-- The closest-hit combination of two intersection routines, as performed
by both the linear scan and an interior BBH node: run the first, shrink
`maxt` to its hit distance, run the second, and keep the later (closer or
equally close) hit. -/
def combineF (fA fB : Ray3 → Option HitInfo) (r : Ray3) : Option HitInfo :=
  match fA r with
  | some h =>
    match fB { r with maxt := (h.t : RTop) } with
    | some h2 => some h2
    | none => some h
  | none => fB r

/-- The linear closest-hit loop shared by `SurfaceGroup::intersect` and
`BBHLeaf::intersect`, returning both the threaded local ray (whose `maxt`
shrinks to `hit.t` after every successful child test) and the current
closest-hit record (`none` while `hit_anything` is false). -/
def scanP : List Prim → Ray3 → Option HitInfo → Ray3 × Option HitInfo
  | [], r, acc => (r, acc)
  | p :: ps, r, acc =>
    match p.intersect r with
    | some h => scanP ps { r with maxt := (h.t : RTop) } (some h)
    | none => scanP ps r acc

/-- Result of the naive linear scan over a list of primitives. -/
def scan (ps : List Prim) (r : Ray3) : Option HitInfo := (scanP ps r none).2

/-- The unconditional hit post-processing of `SurfaceGroup::intersect` and
`BBH::intersect`: transform the position and re-normalized normals back to
world space. -/
def xformHit (t : Transform) (h : HitInfo) : HitInfo :=
  { h with
    p := t.point h.p
    gn := Vec3.normalize (t.normal h.gn)
    sn := Vec3.normalize (t.normal h.sn) }

/-- Surface group (models `SurfaceGroup`): the transform and the child list. -/
structure SurfaceGroupS where
  xform : Transform
  surfaces : List Prim

/-- Models `SurfaceGroup::intersect`: transform the ray to local space, run
the linear scan, then transform the hit information back — note that the
transform of `hit.p`, `hit.gn`, `hit.sn` is applied whether or not anything
was hit. -/
def SurfaceGroupS.intersectFull (g : SurfaceGroupS) (r : Ray3) (hit : HitInfo) :
    Bool × HitInfo :=
  let res := scan g.surfaces ((g.xform.inverse).ray r)
  (res.isSome, xformHit g.xform (res.getD hit))

/-- A BBH node: either a leaf bucket holding primitives (`BBHLeaf`) or an
interior node with a bounding box and two children (`BBHNode`). -/
inductive BBHTree where
  | leaf (ps : List Prim)
  | node (bbox : Box3) (left : BBHTree) (rgt : BBHTree)

/-- Union bounding box of a primitive list (models `BBHLeaf::bounds`). -/
def listBounds (ps : List Prim) : Box3 :=
  ps.foldl (fun b p => b.enclose p.bounds) Box3.empty

/-- Bounds of a subtree: the stored box of an interior node, the union of
the stored primitives' boxes for a leaf bucket. -/
def treeBounds : BBHTree → Box3
  | .leaf ps => listBounds ps
  | .node b _ _ => b

/-- Sort primitives by bounding-box centroid along an axis, as in the
`std::sort` comparator `a->bounds().center()[axis] < b->bounds().center()[axis]`
of the equal-count policy.  `std::sort` is unstable and leaves the relative
order of equal keys unspecified; the stable insertion sort is the
deterministic model of that choice. -/
def sortByCentroid (a : Fin 3) (ps : List Prim) : List Prim :=
  List.insertionSort
    (fun p q => (Box3.center p.bounds).nth a < (Box3.center q.bounds).nth a) ps

/-- Modelled from the spec: the `BBHNode` constructor is a
`put_your_code_here` stub in the sources; per §4.5 construction stops in a
leaf bucket when the list size is within the leaf threshold (a threshold of
at least 1 keeps the recursion well founded); otherwise it chooses the
bounding box's longest axis, performs the equal-count median split by
centroid along that axis (sort by centroid, then cut the sorted list in
half), recurses, and sets the node's bounding box to the union of the two
children's boxes after both are built. -/
def buildNode (m : ℕ) (ps : List Prim) : BBHTree :=
  if h : ps.length ≤ max m 1 then .leaf ps
  else
    let sorted := sortByCentroid ((listBounds ps).longestAxis) ps
    let l := buildNode m (sorted.take (sorted.length / 2))
    let rt := buildNode m (sorted.drop (sorted.length / 2))
    .node ((treeBounds l).enclose (treeBounds rt)) l rt
termination_by ps.length
decreasing_by
  · simp only [List.length_take, sortByCentroid, List.length_insertionSort]
    omega
  · simp only [List.length_drop, sortByCentroid, List.length_insertionSort]
    omega

/-- The primitives stored in a subtree, in construction order. -/
def flattenT : BBHTree → List Prim
  | .leaf ps => ps
  | .node _ l rt => flattenT l ++ flattenT rt

/-- Entry value of the slab test against a box: the clipped interval's lower
end, `+∞` when the box is missed.  Used to order the traversal of an
interior node's children. -/
def entryT (b : Box3) (r : Ray3) : Xr :=
  match Box3.slab b r with
  | none => Xr.pinf
  | some st => st.1

/-- Modelled from the spec: `BBHNode::intersect` is a `put_your_code_here`
stub in the sources; per §4.5 an interior node first runs the slab test
against its box (a miss prunes the subtree), then recurses into both
children, nearer child first — nearer meaning a strictly smaller slab entry
value of the child's box, ties resolved in order of construction — with a
hit in the first-visited child shrinking `ray.maxt` for the second; a leaf
bucket falls back to the naive linear scan. -/
def nodeIntersect : BBHTree → Ray3 → Option HitInfo
  | .leaf ps, r => scan ps r
  | .node b l rt, r =>
    if b.hitBy r then
      if Xr.lt (entryT (treeBounds rt) r) (entryT (treeBounds l) r) then
        match nodeIntersect rt r with
        | some h =>
          match nodeIntersect l { r with maxt := (h.t : RTop) } with
          | some h2 => some h2
          | none => some h
        | none => nodeIntersect l r
      else
        match nodeIntersect l r with
        | some h =>
          match nodeIntersect rt { r with maxt := (h.t : RTop) } with
          | some h2 => some h2
          | none => some h
        | none => nodeIntersect rt r
    else none

/-- Models `BBH::build`: a nonempty child list builds the root node, zero
children set the root to null. -/
def bbhRoot (m : ℕ) (ps : List Prim) : Option BBHTree :=
  if ps.isEmpty then none else some (buildNode m ps)

/-- BBH surface (models `BBH`): leaf-size threshold, transform, children. -/
structure BBHS where
  maxLeafSize : ℕ
  xform : Transform
  surfaces : List Prim

/-- Models `BBH::intersect`: a null root reports no hit and leaves the
record untouched; otherwise transform the ray, traverse from the root, and
transform the hit information back (again unconditionally). -/
def BBHS.intersectFull (bb : BBHS) (r : Ray3) (hit : HitInfo) : Bool × HitInfo :=
  match bbhRoot bb.maxLeafSize bb.surfaces with
  | none => (false, hit)
  | some root =>
    let res := nodeIntersect root ((bb.xform.inverse).ray r)
    (res.isSome, xformHit bb.xform (res.getD hit))

/-- Structural invariant of a BBH subtree: every interior node's box
contains the bounds of every primitive stored beneath it. -/
def goodTree : BBHTree → Prop
  | .leaf _ => True
  | .node b l rt =>
      (∀ p ∈ flattenT l ++ flattenT rt, Box3.sub p.bounds b) ∧
      goodTree l ∧ goodTree rt

/-- A `Quad` used as an abstract child primitive of a group, as stored in
`m_surfaces`: its own `intersect` and its world-space `bounds`. -/
def quadPrim (q : Quad) : Prim := ⟨q.intersect, q.bounds⟩

/-- A concrete quad of extent `[2,2]` (the constructor halves the size) with
the identity transform, used by the concrete witnesses. -/
def q0 : Quad := ⟨⟨1, 1⟩, Transform.idT, 0⟩

/-- A concrete default-interval ray `Ray3f((0,0,5), (0,0,-1))`. -/
def r0 : Ray3 := Ray3.mk' ⟨0, 0, 5⟩ ⟨0, 0, -1⟩

/-- A concrete input hit record for frame-condition checks. -/
def h00 : HitInfo := ⟨0, ⟨0, 0, 0⟩, ⟨0, 0, 1⟩, ⟨0, 0, 1⟩, ⟨0, 0⟩, none⟩

/-- The matrix of `Transform::translate(v)`: the translation sits in the
fourth column of the column-major matrix. -/
def tMat (v : Vec3) : Mat44 :=
  ⟨⟨1, 0, 0, 0⟩, ⟨0, 1, 0, 0⟩, ⟨0, 0, 1, 0⟩, ⟨v.x, v.y, v.z, 1⟩⟩

/-- Translation by one unit along x, with its stored inverse. -/
def shiftX : Transform := ⟨tMat ⟨1, 0, 0⟩, tMat ⟨-1, 0, 0⟩⟩

/-- The unit sphere at the local origin with the identity transform, as in
`test_ray_sphere_intersection`. -/
def s0 : Sphere := ⟨1, Transform.idT, 0⟩

/-- The test ray of `test_ray_sphere_intersection`: origin `(-0.25, 0.5, 4)`,
direction `(0, 0, -1)`, default interval. -/
def rs : Ray3 := Ray3.mk' ⟨-(1 / 4), 1 / 2, 4⟩ ⟨0, 0, -1⟩

/-- A quad of extent `[2,2]` shifted by `+1/2` along x (normal `+z`). -/
def qA : Quad := ⟨⟨1, 1⟩, ⟨tMat ⟨1 / 2, 0, 0⟩, tMat ⟨-(1 / 2), 0, 0⟩⟩, 0⟩

/-- Matrix of a 180° rotation about the x axis followed by a translation of
`-1/2` along x (column-major). -/
def mB : Mat44 :=
  ⟨⟨1, 0, 0, 0⟩, ⟨0, -1, 0, 0⟩, ⟨0, 0, -1, 0⟩, ⟨-(1 / 2), 0, 0, 1⟩⟩

/-- The inverse of `mB`: the same rotation followed by a translation of
`+1/2` along x. -/
def mBinv : Mat44 :=
  ⟨⟨1, 0, 0, 0⟩, ⟨0, -1, 0, 0⟩, ⟨0, 0, -1, 0⟩, ⟨1 / 2, 0, 0, 1⟩⟩

/-- A quad of extent `[2,2]` in the same plane `z = 0`, shifted by `-1/2`
along x and flipped (normal `-z`). -/
def qB : Quad := ⟨⟨1, 1⟩, ⟨mB, mBinv⟩, 1⟩

/-- The two overlapping coplanar quads: a ray through the overlap hits both
at the same distance with opposite normals. -/
def S2 : List Prim := [quadPrim qA, quadPrim qB]

/-- The hit record `qA` produces for the ray down the z axis from `(0,0,5)`. -/
def hitA : HitInfo := ⟨5, ⟨0, 0, 0⟩, ⟨0, 0, 1⟩, ⟨0, 0, 1⟩, ⟨0, 0⟩, some 0⟩

/-- The hit record `qB` produces for the same ray: same `t`, opposite
normals. -/
def hitB : HitInfo := ⟨5, ⟨0, 0, 0⟩, ⟨0, 0, -1⟩, ⟨0, 0, -1⟩, ⟨0, 0⟩, some 1⟩

theorem Xr.not_lt_of_le_le {a b c : Xr} (hab : Xr.le a b) (hbc : Xr.le b c) :
    ¬ Xr.lt c a := by
  cases a <;> cases b <;> cases c <;>
    simp only [Xr.le, Xr.lt] at * <;> first | trivial | linarith

theorem updMin_le {cur : Xr} {t : ℝ} {ov : Option Xr}
    (hc : cur.le (Xr.fin t)) (hv : ∀ a, ov = some a → a.le (Xr.fin t)) :
    (updMin cur ov).le (Xr.fin t) := by
  cases ov with
  | none => exact hc
  | some a =>
    simp only [updMin]
    split
    · exact hv a rfl
    · exact hc

theorem updMax_ge {cur : Xr} {t : ℝ} {ov : Option Xr}
    (hc : (Xr.fin t).le cur) (hv : ∀ a, ov = some a → (Xr.fin t).le a) :
    (Xr.fin t).le (updMax cur ov) := by
  cases ov with
  | none => exact hc
  | some a =>
    simp only [updMax]
    split
    · exact hv a rfl
    · exact hc

theorem mulPInf_le_fin {q t : ℝ} (hq : q ≤ 0) :
    ∀ a, mulPInf q = some a → a.le (Xr.fin t) := by
  intro a ha
  rw [mulPInf, if_neg (not_lt.mpr hq)] at ha
  split at ha
  · cases ha
    trivial
  · cases ha

theorem mulPInf_fin_le {q t : ℝ} (hq : 0 ≤ q) :
    ∀ a, mulPInf q = some a → (Xr.fin t).le a := by
  intro a ha
  rw [mulPInf] at ha
  split at ha
  · cases ha
    trivial
  · rw [if_neg (not_lt.mpr hq)] at ha
    cases ha

theorem slabAxis_some (st : Xr × Xr) {mn mx o d t : ℝ}
    (h1 : mn ≤ o + t * d) (h2 : o + t * d ≤ mx)
    (hlo : st.1.le (Xr.fin t)) (hhi : (Xr.fin t).le st.2) :
    ∃ st2, slabAxis mn mx o d st = some st2 ∧
      st2.1.le (Xr.fin t) ∧ (Xr.fin t).le st2.2 := by
  have key : ∀ ts : Option Xr × Option Xr,
      (∀ a, ts.1 = some a → a.le (Xr.fin t)) →
      (∀ a, ts.2 = some a → (Xr.fin t).le a) →
      axisT mn mx o d = ts →
      ∃ st2, slabAxis mn mx o d st = some st2 ∧
        st2.1.le (Xr.fin t) ∧ (Xr.fin t).le st2.2 := by
    intro ts hts1 hts2 hts
    have hlo2 := updMin_le hlo hts1
    have hhi2 := updMax_ge hhi hts2
    refine ⟨(updMin st.1 ts.1, updMax st.2 ts.2), ?_, hlo2, hhi2⟩
    simp only [slabAxis, hts, if_neg (Xr.not_lt_of_le_le hlo2 hhi2)]
  by_cases hd0 : d = 0
  · subst hd0
    have hmn : mn - o ≤ 0 := by nlinarith
    have hmx : 0 ≤ mx - o := by nlinarith
    refine key (mulPInf (mn - o), mulPInf (mx - o)) ?_ ?_ (by simp [axisT])
    · exact mulPInf_le_fin hmn
    · exact mulPInf_fin_le hmx
  · by_cases hdneg : d < 0
    · have ha1 : (mx - o) / d ≤ t := by
        rw [div_le_iff_of_neg hdneg]
        nlinarith
      have ha2 : t ≤ (mn - o) / d := by
        rw [le_div_iff_of_neg hdneg]
        nlinarith
      refine key (some (Xr.fin ((mx - o) / d)), some (Xr.fin ((mn - o) / d)))
        ?_ ?_ (by simp [axisT, hd0, hdneg])
      · intro a ha
        cases ha
        exact ha1
      · intro a ha
        cases ha
        exact ha2
    · have hdpos : 0 < d := lt_of_le_of_ne (not_lt.mp hdneg) (Ne.symm hd0)
      have ha1 : (mn - o) / d ≤ t := by
        rw [div_le_iff₀ hdpos]
        nlinarith
      have ha2 : t ≤ (mx - o) / d := by
        rw [le_div_iff₀ hdpos]
        nlinarith
      refine key (some (Xr.fin ((mn - o) / d)), some (Xr.fin ((mx - o) / d)))
        ?_ ?_ (by simp [axisT, hd0, hdneg])
      · intro a ha
        cases ha
        exact ha1
      · intro a ha
        cases ha
        exact ha2

theorem box_hitBy_of_inBox {b : Box3} {r : Ray3} {t : ℝ}
    (h1 : r.mint ≤ t) (h2 : (t : RTop) ≤ r.maxt)
    (h3 : Box3.inBox (r.eval t) b) : b.hitBy r := by
  obtain ⟨hx1, hx2, hy1, hy2, hz1, hz2⟩ := h3
  simp only [Ray3.eval, Vec3.add, Vec3.smul] at hx1 hx2 hy1 hy2 hz1 hz2
  have hlo : (Xr.fin r.mint).le (Xr.fin t) := h1
  have hhi : (Xr.fin t).le (Xr.ofTop r.maxt) := by
    unfold Xr.ofTop
    split
    · trivial
    · next h =>
      have hc := WithTop.coe_untop r.maxt h
      rw [← hc] at h2
      exact_mod_cast h2
  obtain ⟨st1, he1, hl1, hh1⟩ :=
    slabAxis_some (Xr.fin r.mint, Xr.ofTop r.maxt)
      (by linarith [hx1] : b.min.x ≤ r.o.x + t * r.d.x)
      (by linarith [hx2] : r.o.x + t * r.d.x ≤ b.max.x) hlo hhi
  obtain ⟨st2, he2, hl2, hh2⟩ :=
    slabAxis_some st1
      (by linarith [hy1] : b.min.y ≤ r.o.y + t * r.d.y)
      (by linarith [hy2] : r.o.y + t * r.d.y ≤ b.max.y) hl1 hh1
  obtain ⟨st3, he3, _, _⟩ :=
    slabAxis_some st2
      (by linarith [hz1] : b.min.z ≤ r.o.z + t * r.d.z)
      (by linarith [hz2] : r.o.z + t * r.d.z ≤ b.max.z) hl2 hh2
  simp only [Box3.hitBy, Box3.slab, he1, he2, he3, Option.bind, Option.isSome]

theorem scanP_append (xs ys : List Prim) (r : Ray3) (acc : Option HitInfo) :
    scanP (xs ++ ys) r acc =
      scanP ys (scanP xs r acc).1 (scanP xs r acc).2 := by
  induction xs generalizing r acc with
  | nil => rfl
  | cons p ps ih =>
    cases hp : p.intersect r with
    | some h =>
      simp only [List.cons_append, scanP, hp]
      exact ih _ _
    | none =>
      simp only [List.cons_append, scanP, hp]
      exact ih _ _

theorem scanP_of_all_none {ps : List Prim} {r : Ray3}
    (h : ∀ p ∈ ps, p.intersect r = none) (acc : Option HitInfo) :
    scanP ps r acc = (r, acc) := by
  induction ps with
  | nil => rfl
  | cons p ps ih =>
    simp only [scanP, h p (List.mem_cons_self p ps)]
    exact ih (fun q hq => h q (List.mem_cons_of_mem p hq))

theorem scanP_isSome (ps : List Prim) (r : Ray3) (h0 : HitInfo) :
    ((scanP ps r (some h0)).2).isSome := by
  induction ps generalizing r h0 with
  | nil => rfl
  | cons p ps ih =>
    simp only [scanP]
    cases p.intersect r <;> exact ih _ _

theorem scanP_ray (ps : List Prim) (r : Ray3) (acc : Option HitInfo) :
    scanP ps r acc = (r, acc) ∨
      ∃ h, (scanP ps r acc).2 = some h ∧
        (scanP ps r acc).1 = { r with maxt := (h.t : RTop) } := by
  induction ps generalizing r acc with
  | nil => exact Or.inl rfl
  | cons p ps ih =>
    cases hp : p.intersect r with
    | none =>
      simp only [scanP, hp]
      exact ih r acc
    | some h =>
      simp only [scanP, hp]
      rcases ih { r with maxt := (h.t : RTop) } (some h) with h1 | ⟨h2, he2, hr2⟩
      · rw [h1]
        exact Or.inr ⟨h, rfl, rfl⟩
      · exact Or.inr ⟨h2, he2, by rw [hr2]⟩

theorem scanP_acc_some {ps : List Prim} {r : Ray3} {h2 : HitInfo}
    (h : (scanP ps r none).2 = some h2) (acc : Option HitInfo) :
    scanP ps r acc = scanP ps r none := by
  induction ps generalizing r acc with
  | nil => simp only [scanP] at h; cases h
  | cons p ps ih =>
    cases hp : p.intersect r with
    | none =>
      simp only [scanP, hp] at h ⊢
      exact ih h acc
    | some hh => simp only [scanP, hp]

theorem scanP_acc_none {ps : List Prim} {r : Ray3}
    (h : (scanP ps r none).2 = none) (acc : Option HitInfo) :
    scanP ps r acc = (r, acc) := by
  induction ps generalizing r acc with
  | nil => rfl
  | cons p ps ih =>
    cases hp : p.intersect r with
    | none =>
      simp only [scanP, hp] at h ⊢
      exact ih h acc
    | some hh =>
      simp only [scanP, hp] at h
      have hs := scanP_isSome ps { r with maxt := (hh.t : RTop) } hh
      rw [h] at hs
      cases hs

theorem Box3.sub_refl (x : Box3) : Box3.sub x x :=
  ⟨le_refl _, le_refl _, le_refl _, le_refl _, le_refl _, le_refl _⟩

theorem Box3.sub_enclose_left {x a : Box3} (c : Box3) (h : Box3.sub x a) :
    Box3.sub x (a.enclose c) := by
  obtain ⟨h1, h2, h3, h4, h5, h6⟩ := h
  exact ⟨le_trans (min_le_left _ _) h1, le_trans (min_le_left _ _) h2,
    le_trans (min_le_left _ _) h3, le_trans h4 (le_max_left _ _),
    le_trans h5 (le_max_left _ _), le_trans h6 (le_max_left _ _)⟩

theorem Box3.sub_enclose_right {x c : Box3} (a : Box3) (h : Box3.sub x c) :
    Box3.sub x (a.enclose c) := by
  obtain ⟨h1, h2, h3, h4, h5, h6⟩ := h
  exact ⟨le_trans (min_le_right _ _) h1, le_trans (min_le_right _ _) h2,
    le_trans (min_le_right _ _) h3, le_trans h4 (le_max_right _ _),
    le_trans h5 (le_max_right _ _), le_trans h6 (le_max_right _ _)⟩

theorem Box3.inBox_of_sub {q : Vec3} {a b : Box3} (hs : Box3.sub a b)
    (hq : Box3.inBox q a) : Box3.inBox q b := by
  obtain ⟨s1, s2, s3, s4, s5, s6⟩ := hs
  obtain ⟨q1, q2, q3, q4, q5, q6⟩ := hq
  exact ⟨le_trans s1 q1, le_trans q2 s4, le_trans s2 q3, le_trans q4 s5,
    le_trans s3 q5, le_trans q6 s6⟩

theorem foldl_enclose_sub_init {x : Box3} (ps : List Prim) (b : Box3)
    (h : Box3.sub x b) :
    Box3.sub x (ps.foldl (fun b p => b.enclose p.bounds) b) := by
  induction ps generalizing b with
  | nil => exact h
  | cons q qs ih => exact ih _ (Box3.sub_enclose_left _ h)

theorem foldl_enclose_sub_mem {p : Prim} {ps : List Prim} (hm : p ∈ ps)
    (b : Box3) :
    Box3.sub p.bounds (ps.foldl (fun b p => b.enclose p.bounds) b) := by
  induction ps generalizing b with
  | nil => cases hm
  | cons q qs ih =>
    rcases List.mem_cons.mp hm with h1 | h2
    · subst h1
      exact foldl_enclose_sub_init qs _
        (Box3.sub_enclose_right _ (Box3.sub_refl _))
    · exact ih h2 _

theorem listBounds_sub {p : Prim} {ps : List Prim} (hm : p ∈ ps) :
    Box3.sub p.bounds (listBounds ps) :=
  foldl_enclose_sub_mem hm _

theorem buildNode_perm (m : ℕ) (ps : List Prim) :
    List.Perm (flattenT (buildNode m ps)) ps := by
  refine buildNode.induct m (fun x => List.Perm (flattenT (buildNode m x)) x)
    ?_ ?_ ps
  · intro x h
    rw [buildNode, dif_pos h]
    exact List.Perm.refl x
  · intro x h sorted ih1 ih2
    rw [buildNode, dif_neg h]
    simp only [flattenT]
    refine (ih1.append ih2).trans ?_
    rw [List.take_append_drop]
    exact List.perm_insertionSort _ x

theorem buildNode_sub (m : ℕ) (ps : List Prim) :
    ∀ p ∈ ps, Box3.sub p.bounds (treeBounds (buildNode m ps)) := by
  refine buildNode.induct m
    (fun x => ∀ p ∈ x, Box3.sub p.bounds (treeBounds (buildNode m x))) ?_ ?_ ps
  · intro x h p hp
    rw [buildNode, dif_pos h]
    exact listBounds_sub hp
  · intro x h sorted ih1 ih2 p hp
    rw [buildNode, dif_neg h]
    simp only [treeBounds]
    have hps : p ∈ sortByCentroid ((listBounds x).longestAxis) x :=
      (List.perm_insertionSort _ x).mem_iff.mpr hp
    rw [← List.take_append_drop
      ((sortByCentroid ((listBounds x).longestAxis) x).length / 2)
      (sortByCentroid ((listBounds x).longestAxis) x)] at hps
    rcases List.mem_append.mp hps with h1 | h2
    · exact Box3.sub_enclose_left _ (ih1 p h1)
    · exact Box3.sub_enclose_right _ (ih2 p h2)

theorem buildNode_good (m : ℕ) (ps : List Prim) :
    goodTree (buildNode m ps) := by
  refine buildNode.induct m (fun x => goodTree (buildNode m x)) ?_ ?_ ps
  · intro x h
    rw [buildNode, dif_pos h]
    trivial
  · intro x h sorted ih1 ih2
    rw [buildNode, dif_neg h]
    refine ⟨?_, ih1, ih2⟩
    intro p hp
    simp only [treeBounds]
    rcases List.mem_append.mp hp with h1 | h2
    · have h1b := (buildNode_perm m _).mem_iff.mp h1
      exact Box3.sub_enclose_left _ (buildNode_sub m _ p h1b)
    · have h2b := (buildNode_perm m _).mem_iff.mp h2
      exact Box3.sub_enclose_right _ (buildNode_sub m _ p h2b)

theorem bind_filter_some {res : Option HitInfo} {m : RTop} {h : HitInfo}
    (hb : res.bind (fun a => if (a.t : RTop) ≤ m then some a else none) = some h) :
    res = some h ∧ (h.t : RTop) ≤ m := by
  cases res with
  | none => cases hb
  | some a =>
    have hb2 : (if (a.t : RTop) ≤ m then some a else none) = some h := hb
    split at hb2
    · cases hb2
      exact ⟨rfl, by assumption⟩
    · cases hb2

theorem tw_cases {p : Prim} (htw : PrimTW p) (r : Ray3) :
    ∃ res : Option HitInfo,
      (∀ m : RTop, p.intersect { r with maxt := m } =
        res.bind (fun h => if (h.t : RTop) ≤ m then some h else none)) ∧
      p.intersect r =
        res.bind (fun h => if (h.t : RTop) ≤ r.maxt then some h else none) := by
  obtain ⟨res, hres⟩ := htw r.o r.d r.mint
  exact ⟨res, fun m => hres m, hres r.maxt⟩

theorem specAt_congr {S1 S2 : List Prim} {res : Option HitInfo} {r : Ray3}
    (hmem : ∀ p, p ∈ S1 ↔ p ∈ S2) (hs : SpecAt S1 res r) : SpecAt S2 res r := by
  obtain ⟨h0, h1⟩ := hs
  constructor
  · constructor
    · intro hn p hp
      exact h0.mp hn p ((hmem p).mpr hp)
    · intro hall
      exact h0.mpr fun p hp => hall p ((hmem p).mp hp)
  · intro h hsome
    obtain ⟨⟨p, hp, hph⟩, hmin⟩ := h1 h hsome
    exact ⟨⟨p, (hmem p).mp hp, hph⟩,
      fun q hq h2 hq2 => hmin q ((hmem q).mpr hq) h2 hq2⟩

theorem spec_single (p : Prim) (r : Ray3) : SpecAt [p] (p.intersect r) r := by
  constructor
  · constructor
    · intro hn q hq
      rw [List.mem_singleton.mp hq]
      exact hn
    · intro hall
      exact hall p (List.mem_singleton.mpr rfl)
  · intro h hsome
    refine ⟨⟨p, List.mem_singleton.mpr rfl, hsome⟩, ?_⟩
    intro q hq h2 hq2
    rw [List.mem_singleton.mp hq] at hq2
    rw [hsome] at hq2
    cases hq2
    exact le_refl _

theorem scan_cons (p : Prim) (ps : List Prim) (r : Ray3) :
    scan (p :: ps) r =
      combineF (fun r2 => p.intersect r2) (fun r2 => scan ps r2) r := by
  simp only [scan, combineF]
  cases hp : p.intersect r with
  | none => simp only [scanP, hp]
  | some h =>
    simp only [scanP, hp]
    cases hsc : (scanP ps { r with maxt := (h.t : RTop) } none).2 with
    | some h2 =>
      rw [scanP_acc_some hsc (some h), hsc]
    | none =>
      rw [scanP_acc_none hsc (some h)]

theorem spec_combine {SA SB : List Prim} {fA fB : Ray3 → Option HitInfo}
    (hAwf : ∀ p ∈ SA, PrimWF p) (hBtw : ∀ p ∈ SB, PrimTW p)
    (hA : ∀ r2, SpecAt SA (fA r2) r2) (hB : ∀ r2, SpecAt SB (fB r2) r2)
    (r : Ray3) : SpecAt (SA ++ SB) (combineF fA fB r) r := by
  obtain ⟨hA0, hA1⟩ := hA r
  cases hfa : fA r with
  | none =>
    have hAnone : ∀ p ∈ SA, p.intersect r = none := hA0.mp hfa
    have hcomb : combineF fA fB r = fB r := by
      simp only [combineF, hfa]
    rw [hcomb]
    obtain ⟨hB0, hB1⟩ := hB r
    constructor
    · constructor
      · intro hn p hp
        rcases List.mem_append.mp hp with hpa | hpb
        · exact hAnone p hpa
        · exact hB0.mp hn p hpb
      · intro hall
        exact hB0.mpr fun p hp => hall p (List.mem_append_right _ hp)
    · intro h hsome
      obtain ⟨⟨p, hp, hph⟩, hmin⟩ := hB1 h hsome
      refine ⟨⟨p, List.mem_append_right _ hp, hph⟩, ?_⟩
      intro q hq h2 hq2
      rcases List.mem_append.mp hq with hqa | hqb
      · rw [hAnone q hqa] at hq2
        cases hq2
      · exact hmin q hqb h2 hq2
  | some h =>
    obtain ⟨⟨pA, hpA, hpAh⟩, hminA⟩ := hA1 h hfa
    obtain ⟨hhmint, hhmax, -⟩ := hAwf pA hpA r h hpAh
    obtain ⟨hB0, hB1⟩ := hB { r with maxt := (h.t : RTop) }
    cases hfb : fB { r with maxt := (h.t : RTop) } with
    | some h2 =>
      have hcomb : combineF fA fB r = some h2 := by
        simp only [combineF, hfa, hfb]
      rw [hcomb]
      obtain ⟨⟨pB, hpB, hpBh⟩, hminB⟩ := hB1 h2 hfb
      obtain ⟨resB, hresB, hresBr⟩ := tw_cases (hBtw pB hpB) r
      have hfilB : resB = some h2 ∧ (h2.t : RTop) ≤ (h.t : RTop) := by
        have hx := hpBh
        rw [hresB (h.t : RTop)] at hx
        exact bind_filter_some hx
      have hBr : pB.intersect r = some h2 := by
        rw [hresBr, hfilB.1]
        show (if (h2.t : RTop) ≤ r.maxt then some h2 else none) = some h2
        rw [if_pos (le_trans hfilB.2 hhmax)]
      have h2le : h2.t ≤ h.t := by exact_mod_cast hfilB.2
      constructor
      · constructor
        · intro hn
          cases hn
        · intro hall
          rw [hall pA (List.mem_append_left _ hpA)] at hpAh
          cases hpAh
      · intro h3 h3eq
        cases h3eq
        refine ⟨⟨pB, List.mem_append_right _ hpB, hBr⟩, ?_⟩
        intro q hq h4 hq4
        rcases List.mem_append.mp hq with hqa | hqb
        · exact le_trans h2le (hminA q hqa h4 hq4)
        · by_cases hcase : (h4.t : RTop) ≤ (h.t : RTop)
          · obtain ⟨resQ, hresQ, hresQr⟩ := tw_cases (hBtw q hqb) r
            have hre : resQ = some h4 := by
              rw [hresQr] at hq4
              exact (bind_filter_some hq4).1
            have hq4b : q.intersect { r with maxt := (h.t : RTop) } = some h4 := by
              rw [hresQ (h.t : RTop), hre]
              show (if (h4.t : RTop) ≤ (h.t : RTop) then some h4 else none) = some h4
              rw [if_pos hcase]
            exact hminB q hqb h4 hq4b
          · push_neg at hcase
            have hlt : h.t < h4.t := by exact_mod_cast hcase
            exact le_trans h2le (le_of_lt hlt)
    | none =>
      have hcomb : combineF fA fB r = some h := by
        simp only [combineF, hfa, hfb]
      rw [hcomb]
      have hBnone : ∀ p ∈ SB,
          p.intersect { r with maxt := (h.t : RTop) } = none := hB0.mp hfb
      constructor
      · constructor
        · intro hn
          cases hn
        · intro hall
          rw [hall pA (List.mem_append_left _ hpA)] at hpAh
          cases hpAh
      · intro h3 h3eq
        cases h3eq
        refine ⟨⟨pA, List.mem_append_left _ hpA, hpAh⟩, ?_⟩
        intro q hq h4 hq4
        rcases List.mem_append.mp hq with hqa | hqb
        · exact hminA q hqa h4 hq4
        · obtain ⟨resQ, hresQ, hresQr⟩ := tw_cases (hBtw q hqb) r
          have hre : resQ = some h4 := by
            rw [hresQr] at hq4
            exact (bind_filter_some hq4).1
          have hqn := hBnone q hqb
          rw [hresQ (h.t : RTop), hre] at hqn
          by_cases hle : (h4.t : RTop) ≤ (h.t : RTop)
          · rw [show (Option.bind (some h4) fun a =>
              if (a.t : RTop) ≤ (h.t : RTop) then some a else none) =
              some h4 from by
                show (if (h4.t : RTop) ≤ (h.t : RTop) then some h4 else none) =
                  some h4
                rw [if_pos hle]] at hqn
            cases hqn
          · push_neg at hle
            have hlt : h.t < h4.t := by exact_mod_cast hle
            exact le_of_lt hlt

theorem scan_specAt (ps : List Prim) :
    (∀ p ∈ ps, PrimWF p) → (∀ p ∈ ps, PrimTW p) →
    ∀ r, SpecAt ps (scan ps r) r := by
  induction ps with
  | nil =>
    intro _ _ r
    refine ⟨⟨fun _ p hp => absurd hp (List.not_mem_nil p), fun _ => rfl⟩, ?_⟩
    intro h hsome
    cases hsome
  | cons p ps ih =>
    intro hwf htw r
    rw [scan_cons]
    have hsingleWF : ∀ q ∈ [p], PrimWF q := by
      intro q hq
      rw [List.mem_singleton.mp hq]
      exact hwf p (List.mem_cons_self p ps)
    have htailTW : ∀ q ∈ ps, PrimTW q :=
      fun q hq => htw q (List.mem_cons_of_mem p hq)
    have htailWF : ∀ q ∈ ps, PrimWF q :=
      fun q hq => hwf q (List.mem_cons_of_mem p hq)
    exact spec_combine hsingleWF htailTW (fun r2 => spec_single p r2)
      (ih htailWF htailTW) r

theorem allNone_of_boxMiss {b : Box3} {S : List Prim} {r : Ray3}
    (hb : ¬ b.hitBy r) (hsub : ∀ p ∈ S, Box3.sub p.bounds b)
    (hwf : ∀ p ∈ S, PrimWF p) : ∀ p ∈ S, p.intersect r = none := by
  intro p hp
  cases hip : p.intersect r with
  | none => rfl
  | some h =>
    obtain ⟨ht1, ht2, hin⟩ := hwf p hp r h hip
    exact absurd (box_hitBy_of_inBox ht1 ht2
      (Box3.inBox_of_sub (hsub p hp) hin)) hb

theorem nodeIntersect_specAt (T : BBHTree) :
    goodTree T → (∀ p ∈ flattenT T, PrimWF p) → (∀ p ∈ flattenT T, PrimTW p) →
    ∀ r, SpecAt (flattenT T) (nodeIntersect T r) r := by
  induction T with
  | leaf ps =>
    intro _ hwf htw r
    exact scan_specAt ps hwf htw r
  | node b l rt ihl ihr =>
    intro hg hwf htw r
    obtain ⟨hsub, hgl, hgr⟩ := hg
    have hwl : ∀ p ∈ flattenT l, PrimWF p :=
      fun p hp => hwf p (List.mem_append_left _ hp)
    have hwr : ∀ p ∈ flattenT rt, PrimWF p :=
      fun p hp => hwf p (List.mem_append_right _ hp)
    have htl : ∀ p ∈ flattenT l, PrimTW p :=
      fun p hp => htw p (List.mem_append_left _ hp)
    have htr : ∀ p ∈ flattenT rt, PrimTW p :=
      fun p hp => htw p (List.mem_append_right _ hp)
    by_cases hb : b.hitBy r
    · by_cases hsw : Xr.lt (entryT (treeBounds rt) r) (entryT (treeBounds l) r)
      · have hcomb : nodeIntersect (.node b l rt) r =
            combineF (fun r2 => nodeIntersect rt r2)
              (fun r2 => nodeIntersect l r2) r := by
          simp only [nodeIntersect, if_pos hb, if_pos hsw, combineF]
        rw [hcomb]
        refine specAt_congr ?_ (spec_combine hwr htl
          (ihr hgr hwr htr) (ihl hgl hwl htl) r)
        intro p
        show p ∈ flattenT rt ++ flattenT l ↔ p ∈ flattenT l ++ flattenT rt
        simp only [List.mem_append]
        exact Or.comm
      · have hcomb : nodeIntersect (.node b l rt) r =
            combineF (fun r2 => nodeIntersect l r2)
              (fun r2 => nodeIntersect rt r2) r := by
          simp only [nodeIntersect, if_pos hb, if_neg hsw, combineF]
        rw [hcomb]
        exact spec_combine hwl htr (ihl hgl hwl htl) (ihr hgr hwr htr) r
    · have hres : nodeIntersect (.node b l rt) r = none := by
        simp only [nodeIntersect, if_neg hb]
      rw [hres]
      have hnone := allNone_of_boxMiss hb hsub hwf
      exact ⟨⟨fun _ => hnone, fun _ => rfl⟩, fun h hsome => by cases hsome⟩

end Darts

namespace Darts

/-- C4 — `Transform::ray` transforms the origin as a point, the direction as
a vector, and preserves `mint` and `maxt` unchanged. -/
theorem transform_ray_spec (t : Transform) (r : Ray3) :
    (t.ray r).o = t.point r.o ∧ (t.ray r).d = t.vector r.d ∧
    (t.ray r).mint = r.mint ∧ (t.ray r).maxt = r.maxt :=
  ⟨rfl, rfl, rfl, rfl⟩

/-- C5 — composition multiplies forward matrices in one fixed order and the
stored inverses in the mirrored order, so `(T1*T2).inverse()` equals
`T2.inverse() * T1.inverse()` (same forward matrix and the same stored
inverse matrix). -/
theorem transform_comp_inverse (t1 t2 : Transform) :
    (t1.comp t2).inverse = (t2.inverse).comp (t1.inverse) :=
  rfl

/-- C8 — a default-constructed box is an identity element for `enclose`:
for every box whose corners are within the float-representable range
(components of `min` at most `FLT_MAX` and of `max` at least `-FLT_MAX`,
true of every finite `Box3f`), enclosing `B` into the empty box yields `B`. -/
theorem box_enclose_empty_identity (b : Box3)
    (hminx : b.min.x ≤ Box3.fltMax) (hminy : b.min.y ≤ Box3.fltMax)
    (hminz : b.min.z ≤ Box3.fltMax)
    (hmaxx : -Box3.fltMax ≤ b.max.x) (hmaxy : -Box3.fltMax ≤ b.max.y)
    (hmaxz : -Box3.fltMax ≤ b.max.z) :
    Box3.empty.enclose b = b := by
  cases b with
  | mk bmin bmax =>
    cases bmin; cases bmax
    simp only [Box3.empty, Box3.enclose, Vec3.vmin, Vec3.vmax] at *
    congr 1 <;> simp_all [Vec3.ext_iff, min_eq_right, max_eq_right]

/-- Witness for C8 at the unit box `[0,1]³`. -/
theorem box_enclose_empty_identity_witness :
    Box3.empty.enclose ⟨⟨0, 0, 0⟩, ⟨1, 1, 1⟩⟩ = ⟨⟨0, 0, 0⟩, ⟨1, 1, 1⟩⟩ :=
  box_enclose_empty_identity ⟨⟨0, 0, 0⟩, ⟨1, 1, 1⟩⟩
    (by norm_num [Box3.fltMax]) (by norm_num [Box3.fltMax])
    (by norm_num [Box3.fltMax]) (by norm_num [Box3.fltMax])
    (by norm_num [Box3.fltMax]) (by norm_num [Box3.fltMax])

theorem point_id (p : Vec3) : Transform.idT.point p = p := by
  cases p
  simp [Transform.point, Transform.idT, Mat44.id, Mat44.mulV, V4.smul, V4.add]

theorem vector_id (v : Vec3) : Transform.idT.vector v = v := by
  cases v
  simp [Transform.vector, Transform.idT, Mat44.id, Mat44.mulV, V4.smul, V4.add,
    V4.xyz]

theorem ray_id (r : Ray3) : Transform.idT.ray r = r := by
  cases r
  simp [Transform.ray, point_id, vector_id]

theorem q0_bounds : q0.bounds =
    ⟨⟨-(10001 / 10000), -(10001 / 10000), -(1 / 10000)⟩,
     ⟨10001 / 10000, 10001 / 10000, 1 / 10000⟩⟩ := by
  have hne : ¬ (q0.localBounds).isEmpty := by
    simp only [Quad.localBounds, Box3.isEmpty, q0, Ray3.epsilon]
    norm_num
  rw [Quad.bounds, Transform.box, if_neg hne]
  simp only [Quad.localBounds, q0, Ray3.epsilon, point_id, Box3.encloseP,
    Vec3.vmin, Vec3.vmax]
  norm_num [min_def, max_def]

theorem quadPrim_q0_wf : PrimWF (quadPrim q0) := by
  intro r h hq
  have htr : q0.tray r = r := ray_id r
  simp only [quadPrim, Quad.intersect, htr] at hq
  split at hq
  · cases hq
  · next hdz =>
    split at hq
    · cases hq
    · next hext =>
      split at hq
      · cases hq
      · next hrange =>
        push_neg at hext hrange
        obtain ⟨hex, hey⟩ := hext
        obtain ⟨hr1, hr2⟩ := hrange
        have hht : h.t = -r.o.z / r.d.z := by
          cases hq
          rfl
        refine ⟨by rw [hht]; exact not_lt.mp (by simpa using hr1), ?_, ?_⟩
        · rw [hht]
          exact not_lt.mp (by simpa using hr2)
        · have hx : |(r.eval (-r.o.z / r.d.z)).x| ≤ 1 := by
            simpa [q0] using hex
          have hy : |(r.eval (-r.o.z / r.d.z)).y| ≤ 1 := by
            simpa [q0] using hey
          have hz : (r.eval (-r.o.z / r.d.z)).z = 0 := by
            simp only [Ray3.eval, Vec3.add, Vec3.smul]
            field_simp
          rw [hht]
          have hxb := abs_le.mp hx
          have hyb := abs_le.mp hy
          show Box3.inBox _ (quadPrim q0).bounds
          have hb : (quadPrim q0).bounds = q0.bounds := rfl
          rw [hb, q0_bounds]
          refine ⟨by linarith [hxb.1], by linarith [hxb.2],
            by linarith [hyb.1], by linarith [hyb.2],
            by rw [hz]; norm_num, by rw [hz]; norm_num⟩

theorem quadPrim_tw (q : Quad) : PrimTW (quadPrim q) := by
  intro o d mint
  refine ⟨q.intersect ⟨o, d, mint, ⊤⟩, ?_⟩
  intro maxt
  show q.intersect ⟨o, d, mint, maxt⟩ = _
  simp only [Quad.intersect, Quad.tray, Transform.inverse, Transform.ray,
    Ray3.eval]
  set P := Transform.point ⟨q.xform.m_inv, q.xform.m⟩ o with hP
  set D := Transform.vector ⟨q.xform.m_inv, q.xform.m⟩ d with hD
  by_cases h1 : D.z = 0
  · rw [if_pos h1, if_pos h1]
    rfl
  · rw [if_neg h1, if_neg h1]
    by_cases h2 : q.m_size.x < |(P.add (Vec3.smul (-P.z / D.z) D)).x| ∨
        q.m_size.y < |(P.add (Vec3.smul (-P.z / D.z) D)).y|
    · rw [if_pos h2, if_pos h2]
      rfl
    · rw [if_neg h2, if_neg h2]
      by_cases h3 : -P.z / D.z < mint
      · rw [if_pos (Or.inl h3), if_pos (Or.inl h3)]
        rfl
      · rw [if_neg (not_or.mpr ⟨h3, not_top_lt⟩)]
        rcases le_or_lt ((-P.z / D.z : ℝ) : RTop) maxt with hle | hlt
        · rw [if_neg (not_or.mpr ⟨h3, not_lt.mpr hle⟩)]
          exact (if_pos hle).symm
        · rw [if_pos (Or.inr hlt)]
          exact (if_neg (not_le.mpr hlt)).symm

/-- C1 (amended) — the BBH and the naive linear scan agree on whether there
is a hit and on the exact hit distance `t`, for any primitive set `S` whose
members report hits inside the query interval and inside their own bounds
and whose candidate hit depends on `maxt` only as a distance filter (true
of the system's leaf surfaces); covering the empty set, singletons and
arbitrary sets.  The full records (`p` and normals) also agree whenever no
two primitives hit the transformed ray at exactly the same distance; on
exact ties the two traversal orders may report different primitives'
records. -/
theorem bbh_matches_linear_scan (m : ℕ) (xf : Transform) (S : List Prim)
    (r : Ray3) (h0 : HitInfo)
    (hwf : ∀ p ∈ S, PrimWF p) (htw : ∀ p ∈ S, PrimTW p) :
    ((BBHS.intersectFull ⟨m, xf, S⟩ r h0).1 =
      (SurfaceGroupS.intersectFull ⟨xf, S⟩ r h0).1) ∧
    ((BBHS.intersectFull ⟨m, xf, S⟩ r h0).1 = true →
      (BBHS.intersectFull ⟨m, xf, S⟩ r h0).2.t =
        (SurfaceGroupS.intersectFull ⟨xf, S⟩ r h0).2.t) ∧
    ((∀ p ∈ S, ∀ q ∈ S, ∀ h h2, p.intersect ((xf.inverse).ray r) = some h →
        q.intersect ((xf.inverse).ray r) = some h2 → h.t = h2.t → h = h2) →
      (BBHS.intersectFull ⟨m, xf, S⟩ r h0).1 = true →
      (BBHS.intersectFull ⟨m, xf, S⟩ r h0).2 =
        (SurfaceGroupS.intersectFull ⟨xf, S⟩ r h0).2) := by
  cases S with
  | nil =>
    refine ⟨?_, ?_, ?_⟩
    · simp [BBHS.intersectFull, bbhRoot, SurfaceGroupS.intersectFull, scan,
        scanP]
    · intro hcontra
      simp [BBHS.intersectFull, bbhRoot] at hcontra
    · intro _ hcontra
      simp [BBHS.intersectFull, bbhRoot] at hcontra
  | cons p ps =>
    have hroot : bbhRoot m (p :: ps) = some (buildNode m (p :: ps)) := by
      simp [bbhRoot]
    have hmem : ∀ q, q ∈ flattenT (buildNode m (p :: ps)) ↔ q ∈ (p :: ps) :=
      fun q => (buildNode_perm m (p :: ps)).mem_iff
    have hspecB : SpecAt (p :: ps)
        (nodeIntersect (buildNode m (p :: ps)) ((xf.inverse).ray r))
        ((xf.inverse).ray r) :=
      specAt_congr hmem (nodeIntersect_specAt _ (buildNode_good m _)
        (fun q hq => hwf q ((hmem q).mp hq))
        (fun q hq => htw q ((hmem q).mp hq)) _)
    have hspecS : SpecAt (p :: ps) (scan (p :: ps) ((xf.inverse).ray r))
        ((xf.inverse).ray r) :=
      scan_specAt _ hwf htw _
    obtain ⟨hB0, hB1⟩ := hspecB
    obtain ⟨hS0, hS1⟩ := hspecS
    have hflag :
        (nodeIntersect (buildNode m (p :: ps)) ((xf.inverse).ray r)).isSome =
        (scan (p :: ps) ((xf.inverse).ray r)).isSome := by
      cases hbres : nodeIntersect (buildNode m (p :: ps)) ((xf.inverse).ray r) with
      | none =>
        cases hsres : scan (p :: ps) ((xf.inverse).ray r) with
        | none => rfl
        | some h =>
          obtain ⟨⟨q, hq, hqh⟩, -⟩ := hS1 h hsres
          rw [hB0.mp hbres q hq] at hqh
          cases hqh
      | some h =>
        cases hsres : scan (p :: ps) ((xf.inverse).ray r) with
        | none =>
          obtain ⟨⟨q, hq, hqh⟩, -⟩ := hB1 h hbres
          rw [hS0.mp hsres q hq] at hqh
          cases hqh
        | some h2 => rfl
    refine ⟨?_, ?_, ?_⟩
    · simp only [BBHS.intersectFull, hroot, SurfaceGroupS.intersectFull]
      exact hflag
    · intro htrue
      simp only [BBHS.intersectFull, hroot] at htrue
      obtain ⟨hb, hbe⟩ := Option.isSome_iff_exists.mp htrue
      have hs2 : (scan (p :: ps) ((xf.inverse).ray r)).isSome := by
        rw [← hflag, hbe]
        rfl
      obtain ⟨hs, hse⟩ := Option.isSome_iff_exists.mp hs2
      simp only [BBHS.intersectFull, hroot, SurfaceGroupS.intersectFull, hbe,
        hse, Option.getD_some]
      show hb.t = hs.t
      obtain ⟨⟨q1, hq1, hq1h⟩, hmin1⟩ := hB1 hb hbe
      obtain ⟨⟨q2, hq2, hq2h⟩, hmin2⟩ := hS1 hs hse
      exact le_antisymm (hmin1 q2 hq2 hs hq2h) (hmin2 q1 hq1 hb hq1h)
    · intro hnt htrue
      simp only [BBHS.intersectFull, hroot] at htrue
      obtain ⟨hb, hbe⟩ := Option.isSome_iff_exists.mp htrue
      have hs2 : (scan (p :: ps) ((xf.inverse).ray r)).isSome := by
        rw [← hflag, hbe]
        rfl
      obtain ⟨hs, hse⟩ := Option.isSome_iff_exists.mp hs2
      simp only [BBHS.intersectFull, hroot, SurfaceGroupS.intersectFull, hbe,
        hse, Option.getD_some]
      obtain ⟨⟨q1, hq1, hq1h⟩, hmin1⟩ := hB1 hb hbe
      obtain ⟨⟨q2, hq2, hq2h⟩, hmin2⟩ := hS1 hs hse
      have hteq : hb.t = hs.t :=
        le_antisymm (hmin1 q2 hq2 hs hq2h) (hmin2 q1 hq1 hb hq1h)
      rw [hnt q1 hq1 q2 hq2 hb hs hq1h hq2h hteq]

/-- Witness for C1: a single identity-transform quad and a concrete ray. -/
theorem bbh_matches_linear_scan_witness :
    ((BBHS.intersectFull ⟨1, Transform.idT, [quadPrim q0]⟩ r0 h00).1 =
      (SurfaceGroupS.intersectFull ⟨Transform.idT, [quadPrim q0]⟩ r0 h00).1) ∧
    ((BBHS.intersectFull ⟨1, Transform.idT, [quadPrim q0]⟩ r0 h00).1 = true →
      (BBHS.intersectFull ⟨1, Transform.idT, [quadPrim q0]⟩ r0 h00).2.t =
        (SurfaceGroupS.intersectFull ⟨Transform.idT, [quadPrim q0]⟩ r0 h00).2.t) ∧
    ((∀ p ∈ [quadPrim q0], ∀ q ∈ [quadPrim q0], ∀ h h2,
        p.intersect ((Transform.idT.inverse).ray r0) = some h →
        q.intersect ((Transform.idT.inverse).ray r0) = some h2 → h.t = h2.t → h = h2) →
      (BBHS.intersectFull ⟨1, Transform.idT, [quadPrim q0]⟩ r0 h00).1 = true →
      (BBHS.intersectFull ⟨1, Transform.idT, [quadPrim q0]⟩ r0 h00).2 =
        (SurfaceGroupS.intersectFull ⟨Transform.idT, [quadPrim q0]⟩ r0 h00).2) :=
  bbh_matches_linear_scan 1 Transform.idT [quadPrim q0] r0 h00
    (fun p hp => by
      rw [List.mem_singleton.mp hp]
      exact quadPrim_q0_wf)
    (fun p hp => by
      rw [List.mem_singleton.mp hp]
      exact quadPrim_tw q0)

/-- C9 — building a BBH over zero child primitives sets the root to null,
and every subsequent `BBH::intersect` call returns false for every ray,
leaving the hit record untouched. -/
theorem bbh_empty_null_root (m : ℕ) (xf : Transform) :
    bbhRoot m [] = none ∧
    ∀ (r : Ray3) (h0 : HitInfo),
      BBHS.intersectFull ⟨m, xf, []⟩ r h0 = (false, h0) := by
  constructor
  · simp [bbhRoot]
  · intro r h0
    simp [BBHS.intersectFull, bbhRoot]

/-- Normalizing the unit z vector returns it unchanged. -/
theorem normalize_unit_z : Vec3.normalize ⟨0, 0, 1⟩ = ⟨0, 0, 1⟩ := by
  simp [Vec3.normalize, Vec3.length, Vec3.length2, Vec3.dot]

/-- The identity transform maps the normal `(0,0,1)` to itself. -/
theorem normal_id_z : Transform.idT.normal ⟨0, 0, 1⟩ = ⟨0, 0, 1⟩ := by
  have hm : (Mat44.id.transpose.mulV ⟨0, 0, 1, 0⟩).xyz = Vec3.mk 0 0 1 := by
    simp [Mat44.transpose, Mat44.id, Mat44.mulV, V4.smul, V4.add, V4.xyz]
  simp [Transform.normal, Transform.idT, hm, normalize_unit_z]

/-- Concrete evaluation: the identity quad hit by the ray from `(0,0,5)`
straight down the z axis produces the full record with `t = 5`. -/
theorem q0_intersect_r0 :
    q0.intersect r0 = some ⟨5, ⟨0, 0, 0⟩, ⟨0, 0, 1⟩, ⟨0, 0, 1⟩, ⟨0, 0⟩, some 0⟩ := by
  have htr : q0.tray r0 = r0 := ray_id r0
  have hnrm : Vec3.normalize (Transform.idT.normal ⟨0, 0, 1⟩) = ⟨0, 0, 1⟩ := by
    rw [normal_id_z, normalize_unit_z]
  simp only [Quad.intersect, htr]
  norm_num [r0, Ray3.mk', Ray3.eval, Ray3.epsilon, Vec3.add, Vec3.smul, q0,
    hnrm, point_id, not_top_lt]

/-- Normalizing the negative unit z vector returns it unchanged. -/
theorem normalize_unit_negz : Vec3.normalize ⟨0, 0, -1⟩ = ⟨0, 0, -1⟩ := by
  simp [Vec3.normalize, Vec3.length, Vec3.length2, Vec3.dot]

theorem qA_hit (mt : RTop) (h5 : ((5 : ℝ) : RTop) ≤ mt) :
    qA.intersect ⟨⟨0, 0, 5⟩, ⟨0, 0, -1⟩, 1 / 10000, mt⟩ = some hitA := by
  have htr : qA.tray ⟨⟨0, 0, 5⟩, ⟨0, 0, -1⟩, 1 / 10000, mt⟩ =
      ⟨⟨-(1 / 2), 0, 5⟩, ⟨0, 0, -1⟩, 1 / 10000, mt⟩ := by
    simp [Quad.tray, qA, Transform.inverse, Transform.ray, Transform.point,
      Transform.vector, tMat, Mat44.mulV, V4.smul, V4.add, V4.xyz, Vec3.ext_iff]
  have hn1 : Vec3.normalize (Transform.normal
      ⟨tMat ⟨1 / 2, 0, 0⟩, tMat ⟨-(1 / 2), 0, 0⟩⟩ ⟨0, 0, 1⟩) = ⟨0, 0, 1⟩ := by
    have hm : ((tMat ⟨-(1 / 2), 0, 0⟩).transpose.mulV ⟨0, 0, 1, 0⟩).xyz =
        Vec3.mk 0 0 1 := by
      simp [tMat, Mat44.transpose, Mat44.mulV, V4.smul, V4.add, V4.xyz]
    simp only [Transform.normal]
    rw [hm, normalize_unit_z, normalize_unit_z]
  have hpw : Transform.point ⟨tMat ⟨1 / 2, 0, 0⟩, tMat ⟨-(1 / 2), 0, 0⟩⟩
      ⟨-(1 / 2), 0, 0⟩ = ⟨0, 0, 0⟩ := by
    simp [Transform.point, tMat, Mat44.mulV, V4.smul, V4.add, Vec3.ext_iff]
  simp only [Quad.intersect, htr, Ray3.eval, Vec3.add, Vec3.smul]
  norm_num [hitA, qA]
  exact ⟨abs_le.mpr ⟨by norm_num, by norm_num⟩, h5, hpw, hn1⟩

theorem qB_hit (mt : RTop) (h5 : ((5 : ℝ) : RTop) ≤ mt) :
    qB.intersect ⟨⟨0, 0, 5⟩, ⟨0, 0, -1⟩, 1 / 10000, mt⟩ = some hitB := by
  have htr : qB.tray ⟨⟨0, 0, 5⟩, ⟨0, 0, -1⟩, 1 / 10000, mt⟩ =
      ⟨⟨1 / 2, 0, -5⟩, ⟨0, 0, 1⟩, 1 / 10000, mt⟩ := by
    simp [Quad.tray, qB, mBinv, Transform.inverse, Transform.ray,
      Transform.point, Transform.vector, Mat44.mulV, V4.smul, V4.add, V4.xyz,
      Vec3.ext_iff]
  have hn1 : Vec3.normalize (Transform.normal ⟨mB, mBinv⟩ ⟨0, 0, 1⟩) =
      ⟨0, 0, -1⟩ := by
    have hm : (mBinv.transpose.mulV ⟨0, 0, 1, 0⟩).xyz = Vec3.mk 0 0 (-1) := by
      simp [mBinv, Mat44.transpose, Mat44.mulV, V4.smul, V4.add, V4.xyz]
    simp only [Transform.normal]
    rw [hm, normalize_unit_negz, normalize_unit_negz]
  have hpw : Transform.point ⟨mB, mBinv⟩ ⟨1 / 2, 0, 0⟩ = ⟨0, 0, 0⟩ := by
    simp [mB, Transform.point, Mat44.mulV, V4.smul, V4.add, Vec3.ext_iff]
  simp only [Quad.intersect, htr, Ray3.eval, Vec3.add, Vec3.smul]
  norm_num [hitB, qB]
  exact ⟨abs_le.mpr ⟨by norm_num, by norm_num⟩, h5, hpw, hn1⟩

/-- The linear scan over the two tied quads keeps the later child `qB`:
`qA` hits first, `maxt` shrinks to 5, and `qB`'s equal-distance hit still
passes the `maxt < t` test and overwrites the record. -/
theorem scan_S2_r0 : scan S2 r0 = some hitB := by
  have hA := qA_hit ⊤ le_top
  have hB := qB_hit ((5 : ℝ) : RTop) (le_refl _)
  show (scanP [quadPrim qA, quadPrim qB] r0 none).2 = some hitB
  have hrA : (quadPrim qA).intersect r0 = some hitA := hA
  have hrB : (quadPrim qB).intersect
      ⟨⟨0, 0, 5⟩, ⟨0, 0, -1⟩, 1 / 10000, ((5 : ℝ) : RTop)⟩ = some hitB := hB
  simp only [scanP, hrA]
  show (scanP [quadPrim qB]
      ⟨⟨0, 0, 5⟩, ⟨0, 0, -1⟩, 1 / 10000, ((hitA.t : ℝ) : RTop)⟩ (some hitA)).2 =
    some hitB
  simp only [scanP, hitA, hrB]

theorem qA_bounds : qA.bounds =
    ⟨⟨-(5001 / 10000), -(10001 / 10000), -(1 / 10000)⟩,
     ⟨15001 / 10000, 10001 / 10000, 1 / 10000⟩⟩ := by
  have hne : ¬ (qA.localBounds).isEmpty := by
    simp only [Quad.localBounds, Box3.isEmpty, qA, Ray3.epsilon]
    norm_num
  rw [Quad.bounds, Transform.box, if_neg hne]
  simp only [Quad.localBounds, qA, Ray3.epsilon, Transform.point, tMat,
    Mat44.mulV, V4.smul, V4.add, Box3.encloseP, Vec3.vmin, Vec3.vmax]
  norm_num [min_def, max_def]

theorem qB_bounds : qB.bounds =
    ⟨⟨-(15001 / 10000), -(10001 / 10000), -(1 / 10000)⟩,
     ⟨5001 / 10000, 10001 / 10000, 1 / 10000⟩⟩ := by
  have hne : ¬ (qB.localBounds).isEmpty := by
    simp only [Quad.localBounds, Box3.isEmpty, qB, Ray3.epsilon]
    norm_num
  rw [Quad.bounds, Transform.box, if_neg hne]
  simp only [Quad.localBounds, qB, mB, Ray3.epsilon, Transform.point,
    Mat44.mulV, V4.smul, V4.add, Box3.encloseP, Vec3.vmin, Vec3.vmax]
  norm_num [min_def, max_def]

theorem listBounds_S2 : listBounds S2 =
    ⟨⟨-(15001 / 10000), -(10001 / 10000), -(1 / 10000)⟩,
     ⟨15001 / 10000, 10001 / 10000, 1 / 10000⟩⟩ := by
  show ((Box3.empty.enclose (quadPrim qA).bounds).enclose
    (quadPrim qB).bounds) = _
  show ((Box3.empty.enclose qA.bounds).enclose qB.bounds) = _
  rw [qA_bounds, qB_bounds]
  simp only [Box3.empty, Box3.enclose, Vec3.vmin, Vec3.vmax, Box3.fltMax]
  norm_num [min_def, max_def]

theorem longestAxis_S2 : (listBounds S2).longestAxis = 0 := by
  rw [listBounds_S2]
  rw [Box3.longestAxis, if_pos]
  simp only [Box3.diagonal, Vec3.sub]
  norm_num

theorem sort_S2 : sortByCentroid ((listBounds S2).longestAxis) S2 =
    [quadPrim qB, quadPrim qA] := by
  rw [longestAxis_S2]
  have hcA : (Box3.center (quadPrim qA).bounds).nth 0 = 1 / 2 := by
    show (Box3.center qA.bounds).nth 0 = 1 / 2
    rw [qA_bounds]
    simp only [Box3.center, Vec3.nth]
    norm_num
  have hcB : (Box3.center (quadPrim qB).bounds).nth 0 = -(1 / 2) := by
    show (Box3.center qB.bounds).nth 0 = -(1 / 2)
    rw [qB_bounds]
    simp only [Box3.center, Vec3.nth]
    norm_num
  show List.insertionSort _ [quadPrim qA, quadPrim qB] = _
  simp only [List.insertionSort, List.orderedInsert]
  rw [if_neg]
  rw [hcA, hcB]
  norm_num

theorem buildNode_S2 : buildNode 1 S2 =
    .node ((treeBounds (.leaf [quadPrim qB])).enclose
        (treeBounds (.leaf [quadPrim qA])))
      (.leaf [quadPrim qB]) (.leaf [quadPrim qA]) := by
  have hlen : ¬ (S2.length ≤ max 1 1) := by simp [S2]
  rw [buildNode, dif_neg hlen]
  simp only [sort_S2]
  have h1 : ([quadPrim qB, quadPrim qA].length / 2) = 1 := by simp
  rw [h1]
  have hbB : buildNode 1 (List.take 1 [quadPrim qB, quadPrim qA]) =
      .leaf [quadPrim qB] := by
    rw [buildNode, dif_pos (by simp)]
    simp
  have hbA : buildNode 1 (List.drop 1 [quadPrim qB, quadPrim qA]) =
      .leaf [quadPrim qA] := by
    rw [buildNode, dif_pos (by simp)]
    simp
  rw [hbB, hbA]

theorem ofTop_top : Xr.ofTop (⊤ : RTop) = Xr.pinf := by
  simp [Xr.ofTop]

theorem not_lt_ninf (a : Xr) : ¬ Xr.lt a Xr.ninf := by
  cases a <;> simp [Xr.lt]

theorem not_pinf_lt (a : Xr) : ¬ Xr.lt Xr.pinf a := by
  cases a <;> simp [Xr.lt]

/-- A zero direction component whose slab straddles the origin leaves the
running interval unchanged: `t0 = -∞`, `t1 = +∞`, neither update fires. -/
theorem slabAxis_zero_inside {mn mx o : ℝ} (h1 : mn < o) (h2 : o < mx)
    (lo hi : Xr) (hle : ¬ Xr.lt hi lo) :
    slabAxis mn mx o 0 (lo, hi) = some (lo, hi) := by
  simp only [slabAxis, axisT]
  rw [if_pos (trivial : True)]
  rw [show mulPInf (mn - o) = some Xr.ninf from by
    rw [mulPInf, if_neg (by linarith : ¬ ((0 : ℝ) < mn - o)),
      if_pos (by linarith : mn - o < 0)]]
  rw [show mulPInf (mx - o) = some Xr.pinf from by
    rw [mulPInf, if_pos (by linarith : (0 : ℝ) < mx - o)]]
  simp only [updMin, updMax]
  rw [if_neg (not_lt_ninf lo), if_neg (not_pinf_lt hi), if_neg hle]

/-- The z slab `[-ε, ε]` clips the interval of the concrete downward ray to
`[5 - ε, 5 + ε]`. -/
theorem slabAxis_z_r0 :
    slabAxis (-(1 / 10000)) (1 / 10000) 5 (-1) (Xr.fin (1 / 10000), Xr.pinf) =
      some (Xr.fin (49999 / 10000), Xr.fin (50001 / 10000)) := by
  simp only [slabAxis, axisT]
  rw [if_neg (by norm_num : ¬ ((-1 : ℝ) = 0)),
    if_pos (by norm_num : (-1 : ℝ) < 0)]
  simp only [updMin, updMax]
  rw [if_pos (by norm_num [Xr.lt] :
      Xr.lt (Xr.fin (1 / 10000)) (Xr.fin ((1 / 10000 - 5) / (-1)))),
    if_pos (by norm_num [Xr.lt] :
      Xr.lt (Xr.fin ((-(1 / 10000) - 5) / (-1))) Xr.pinf),
    if_neg (by norm_num [Xr.lt] :
      ¬ Xr.lt (Xr.fin ((-(1 / 10000) - 5) / (-1)))
        (Xr.fin ((1 / 10000 - 5) / (-1))))]
  norm_num

/-- Slab test of the concrete ray `r0` against any box that straddles the
ray in x and y and has the exact z extent `[-ε, ε]` of the coplanar quads. -/
theorem slab_r0_box {b : Box3} (hx1 : b.min.x < 0) (hx2 : 0 < b.max.x)
    (hy1 : b.min.y < 0) (hy2 : 0 < b.max.y)
    (hz1 : b.min.z = -(1 / 10000)) (hz2 : b.max.z = 1 / 10000) :
    Box3.slab b r0 = some (Xr.fin (49999 / 10000), Xr.fin (50001 / 10000)) := by
  show (slabAxis b.min.x b.max.x 0 0 (Xr.fin (1 / 10000), Xr.ofTop ⊤)).bind _ = _
  rw [ofTop_top,
    slabAxis_zero_inside hx1 hx2 (Xr.fin (1 / 10000)) Xr.pinf
      (not_pinf_lt _)]
  show (slabAxis b.min.y b.max.y 0 0 (Xr.fin (1 / 10000), Xr.pinf)).bind _ = _
  rw [slabAxis_zero_inside hy1 hy2 (Xr.fin (1 / 10000)) Xr.pinf
      (not_pinf_lt _)]
  show slabAxis b.min.z b.max.z 5 (-1) (Xr.fin (1 / 10000), Xr.pinf) = _
  rw [hz1, hz2]
  exact slabAxis_z_r0

theorem tb_leafB : treeBounds (BBHTree.leaf [quadPrim qB]) =
    ⟨⟨-(15001 / 10000), -(10001 / 10000), -(1 / 10000)⟩,
     ⟨5001 / 10000, 10001 / 10000, 1 / 10000⟩⟩ := by
  show Box3.empty.enclose (quadPrim qB).bounds = _
  show Box3.empty.enclose qB.bounds = _
  rw [qB_bounds]
  simp only [Box3.empty, Box3.enclose, Vec3.vmin, Vec3.vmax, Box3.fltMax]
  norm_num [min_def, max_def]

theorem tb_leafA : treeBounds (BBHTree.leaf [quadPrim qA]) =
    ⟨⟨-(5001 / 10000), -(10001 / 10000), -(1 / 10000)⟩,
     ⟨15001 / 10000, 10001 / 10000, 1 / 10000⟩⟩ := by
  show Box3.empty.enclose (quadPrim qA).bounds = _
  show Box3.empty.enclose qA.bounds = _
  rw [qA_bounds]
  simp only [Box3.empty, Box3.enclose, Vec3.vmin, Vec3.vmax, Box3.fltMax]
  norm_num [min_def, max_def]

/-- The nearer-child comparison at the root of the two-quad BBH is a tie:
both children's boxes share the z slab, so both entry values are `5 - ε`
and the traversal keeps construction order (left child `qB` first). -/
theorem no_swap_S2 :
    ¬ Xr.lt (entryT (treeBounds (BBHTree.leaf [quadPrim qA])) r0)
      (entryT (treeBounds (BBHTree.leaf [quadPrim qB])) r0) := by
  have heA : entryT (treeBounds (BBHTree.leaf [quadPrim qA])) r0 =
      Xr.fin (49999 / 10000) := by
    rw [entryT, tb_leafA, slab_r0_box (by norm_num) (by norm_num) (by norm_num)
      (by norm_num) (by norm_num) (by norm_num)]
  have heB : entryT (treeBounds (BBHTree.leaf [quadPrim qB])) r0 =
      Xr.fin (49999 / 10000) := by
    rw [entryT, tb_leafB, slab_r0_box (by norm_num) (by norm_num) (by norm_num)
      (by norm_num) (by norm_num) (by norm_num)]
  rw [heA, heB]
  simp [Xr.lt]

theorem node_box_hit :
    ((treeBounds (BBHTree.leaf [quadPrim qB])).enclose
      (treeBounds (BBHTree.leaf [quadPrim qA]))).hitBy r0 := by
  have hnb : (treeBounds (BBHTree.leaf [quadPrim qB])).enclose
      (treeBounds (BBHTree.leaf [quadPrim qA])) =
      ⟨⟨-(15001 / 10000), -(10001 / 10000), -(1 / 10000)⟩,
       ⟨15001 / 10000, 10001 / 10000, 1 / 10000⟩⟩ := by
    rw [tb_leafA, tb_leafB]
    simp only [Box3.enclose, Vec3.vmin, Vec3.vmax]
    norm_num [min_def, max_def]
  rw [Box3.hitBy, hnb, slab_r0_box (by norm_num) (by norm_num) (by norm_num)
    (by norm_num) (by norm_num) (by norm_num)]
  rfl

/-- The BBH traversal of the two tied quads returns `qA`'s record: the
visit order is `qB` (left child) first, then `qA`, whose equal-distance hit
overwrites the running record — the opposite order of the linear scan. -/
theorem nodeIntersect_S2 : nodeIntersect (buildNode 1 S2) r0 = some hitA := by
  rw [buildNode_S2]
  have hlB : scan [quadPrim qB] r0 = some hitB := by
    show (scanP [quadPrim qB] r0 none).2 = some hitB
    have hrB : (quadPrim qB).intersect r0 = some hitB := qB_hit ⊤ le_top
    simp only [scanP, hrB]
  have hlA : scan [quadPrim qA]
      ⟨⟨0, 0, 5⟩, ⟨0, 0, -1⟩, 1 / 10000, ((5 : ℝ) : RTop)⟩ = some hitA := by
    show (scanP [quadPrim qA] _ none).2 = some hitA
    have hrA : (quadPrim qA).intersect
        ⟨⟨0, 0, 5⟩, ⟨0, 0, -1⟩, 1 / 10000, ((5 : ℝ) : RTop)⟩ = some hitA :=
      qA_hit ((5 : ℝ) : RTop) (le_refl _)
    simp only [scanP, hrA]
  simp only [nodeIntersect]
  rw [if_pos node_box_hit, if_neg no_swap_S2]
  simp only [hlB]
  show (match scan [quadPrim qA]
      ⟨⟨0, 0, 5⟩, ⟨0, 0, -1⟩, 1 / 10000, ((5 : ℝ) : RTop)⟩ with
    | some h2 => some h2
    | none => some hitB) = some hitA
  rw [hlA]

/-- C1 counterexample — two overlapping coplanar quads hit by one ray at
exactly the same distance `t = 5` with opposite normals: the spec-faithful
BBH (centroid-median split, nearer-child-first traversal with
construction-order tie-break) visits them in the opposite order from the
linear scan, so both report a hit at the same `t` but with different
records — the geometric normals' z components differ by 2, far beyond the
1e-5 tolerance. -/
theorem bbh_tie_counterexample :
    (BBHS.intersectFull ⟨1, Transform.idT, S2⟩ r0 h00).1 = true ∧
    (SurfaceGroupS.intersectFull ⟨Transform.idT, S2⟩ r0 h00).1 = true ∧
    (BBHS.intersectFull ⟨1, Transform.idT, S2⟩ r0 h00).2.gn.z = 1 ∧
    (SurfaceGroupS.intersectFull ⟨Transform.idT, S2⟩ r0 h00).2.gn.z = -1 ∧
    1 / 100000 <
      |(BBHS.intersectFull ⟨1, Transform.idT, S2⟩ r0 h00).2.gn.z -
        (SurfaceGroupS.intersectFull ⟨Transform.idT, S2⟩ r0 h00).2.gn.z| := by
  have hray : (Transform.idT.inverse).ray r0 = r0 := ray_id r0
  have hroot : bbhRoot 1 S2 = some (buildNode 1 S2) := by simp [bbhRoot, S2]
  have hb : BBHS.intersectFull ⟨1, Transform.idT, S2⟩ r0 h00 =
      (true, xformHit Transform.idT hitA) := by
    simp only [BBHS.intersectFull, hroot, hray, nodeIntersect_S2,
      Option.isSome_some, Option.getD_some]
  have hs : SurfaceGroupS.intersectFull ⟨Transform.idT, S2⟩ r0 h00 =
      (true, xformHit Transform.idT hitB) := by
    simp only [SurfaceGroupS.intersectFull, hray, scan_S2_r0,
      Option.isSome_some, Option.getD_some]
  have hnB : Transform.idT.normal ⟨0, 0, -1⟩ = ⟨0, 0, -1⟩ := by
    have hm : (Mat44.id.transpose.mulV ⟨0, 0, -1, 0⟩).xyz = Vec3.mk 0 0 (-1) := by
      simp [Mat44.transpose, Mat44.id, Mat44.mulV, V4.smul, V4.add, V4.xyz]
    simp [Transform.normal, Transform.idT, hm, normalize_unit_negz]
  have hgA : (xformHit Transform.idT hitA).gn.z = 1 := by
    simp only [xformHit, hitA, normal_id_z, normalize_unit_z]
  have hgB : (xformHit Transform.idT hitB).gn.z = -1 := by
    simp only [xformHit, hitB, hnB, normalize_unit_negz]
  refine ⟨by rw [hb], by rw [hs], ?_, ?_, ?_⟩
  · rw [hb]
    exact hgA
  · rw [hs]
    exact hgB
  · rw [hb, hs]
    show 1 / 100000 < |(xformHit Transform.idT hitA).gn.z -
      (xformHit Transform.idT hitB).gn.z|
    rw [hgA, hgB]
    rw [show (1 : ℝ) - -1 = 2 by norm_num,
      abs_of_pos (by norm_num : (0 : ℝ) < 2)]
    norm_num

/-- C2 counterexample — a `SurfaceGroup` positioned by a unit x translation
with no children: `intersect` returns false yet overwrites `hit.p` (the
world-space transform of the stale position), so a failed query does not
leave the record untouched. -/
theorem group_miss_modifies_hit :
    (SurfaceGroupS.intersectFull ⟨shiftX, []⟩ r0 h00).1 = false ∧
    (SurfaceGroupS.intersectFull ⟨shiftX, []⟩ r0 h00).2.p ≠ h00.p := by
  constructor
  · rfl
  · show (xformHit shiftX h00).p ≠ h00.p
    simp only [xformHit, h00]
    simp [Transform.point, shiftX, tMat, Mat44.mulV, V4.smul, V4.add,
      Vec3.ext_iff]

/-- C2 amended — a leaf surface such as `Quad` leaves the hit record exactly
unchanged when it returns false, but the composite `SurfaceGroup::intersect`
— and `BBH::intersect` whenever its root is non-null, i.e. the child list is
nonempty — transforms `hit.p`/`hit.gn`/`hit.sn` back to world space even
when nothing was hit, so on failure the record equals the transformed input
record and callers must not read it. -/
theorem no_hit_record_policy :
    (∀ (q : Quad) (r : Ray3) (h0 : HitInfo),
      (q.intersectFull r h0).1 = false → (q.intersectFull r h0).2 = h0) ∧
    (∀ (g : SurfaceGroupS) (r : Ray3) (h0 : HitInfo),
      (g.intersectFull r h0).1 = false →
        (g.intersectFull r h0).2 = xformHit g.xform h0) ∧
    (∀ (bb : BBHS) (r : Ray3) (h0 : HitInfo), bb.surfaces ≠ [] →
      (bb.intersectFull r h0).1 = false →
        (bb.intersectFull r h0).2 = xformHit bb.xform h0) := by
  refine ⟨?_, ?_, ?_⟩
  · intro q r h0 hf
    cases hqi : q.intersect r with
    | some h =>
      simp only [Quad.intersectFull, hqi] at hf
      cases hf
    | none => simp only [Quad.intersectFull, hqi]
  · intro g r h0 hf
    cases hs : scan g.surfaces ((g.xform.inverse).ray r) with
    | some h =>
      simp only [SurfaceGroupS.intersectFull, hs, Option.isSome_some] at hf
      cases hf
    | none =>
      simp only [SurfaceGroupS.intersectFull, hs, Option.getD_none]
  · intro bb r h0 hne hf
    have hroot : bbhRoot bb.maxLeafSize bb.surfaces =
        some (buildNode bb.maxLeafSize bb.surfaces) := by
      simp [bbhRoot, List.isEmpty_iff, hne]
    cases hn : nodeIntersect (buildNode bb.maxLeafSize bb.surfaces)
        ((bb.xform.inverse).ray r) with
    | some h =>
      simp only [BBHS.intersectFull, hroot, hn, Option.isSome_some] at hf
      cases hf
    | none =>
      simp only [BBHS.intersectFull, hroot, hn, Option.getD_none]

/-- Witness for C2 amended: a parallel ray missing the quad, the empty
translated group, and a translated one-quad BBH missed by the same
parallel ray. -/
theorem no_hit_record_policy_witness :
    (q0.intersectFull (Ray3.mk' ⟨0, 0, 5⟩ ⟨1, 0, 0⟩) h00).2 = h00 ∧
    (SurfaceGroupS.intersectFull ⟨shiftX, []⟩ r0 h00).2 = xformHit shiftX h00 ∧
    (BBHS.intersectFull ⟨1, shiftX, [quadPrim q0]⟩
        (Ray3.mk' ⟨0, 0, 5⟩ ⟨1, 0, 0⟩) h00).2 = xformHit shiftX h00 := by
  have hmiss : q0.intersect (Ray3.mk' ⟨0, 0, 5⟩ ⟨1, 0, 0⟩) = none := by
    have htr : q0.tray (Ray3.mk' ⟨0, 0, 5⟩ ⟨1, 0, 0⟩) =
        Ray3.mk' ⟨0, 0, 5⟩ ⟨1, 0, 0⟩ := ray_id _
    simp only [Quad.intersect, htr]
    rw [if_pos (show (Ray3.mk' ⟨0, 0, 5⟩ ⟨1, 0, 0⟩).d.z = 0 from rfl)]
  have hmiss2 : q0.intersect
      ((shiftX.inverse).ray (Ray3.mk' ⟨0, 0, 5⟩ ⟨1, 0, 0⟩)) = none := by
    have htr2 : q0.tray ((shiftX.inverse).ray (Ray3.mk' ⟨0, 0, 5⟩ ⟨1, 0, 0⟩)) =
        (shiftX.inverse).ray (Ray3.mk' ⟨0, 0, 5⟩ ⟨1, 0, 0⟩) := ray_id _
    simp only [Quad.intersect, htr2]
    rw [if_pos (show ((shiftX.inverse).ray
        (Ray3.mk' ⟨0, 0, 5⟩ ⟨1, 0, 0⟩)).d.z = 0 from by
      simp [shiftX, Transform.inverse, Transform.ray, Transform.vector, tMat,
        Mat44.mulV, V4.smul, V4.add, V4.xyz, Ray3.mk'])]
  refine ⟨?_, ?_, ?_⟩
  · refine no_hit_record_policy.1 q0 (Ray3.mk' ⟨0, 0, 5⟩ ⟨1, 0, 0⟩) h00 ?_
    simp only [Quad.intersectFull, hmiss]
  · exact no_hit_record_policy.2.1 ⟨shiftX, []⟩ r0 h00 rfl
  · refine no_hit_record_policy.2.2 ⟨1, shiftX, [quadPrim q0]⟩
      (Ray3.mk' ⟨0, 0, 5⟩ ⟨1, 0, 0⟩) h00 (by simp) ?_
    have hleaf : buildNode 1 [quadPrim q0] = .leaf [quadPrim q0] := by
      rw [buildNode, dif_pos (by simp)]
    simp only [BBHS.intersectFull, bbhRoot, List.isEmpty_cons, hleaf]
    show (scan [quadPrim q0] _).isSome = false
    simp only [scan, scanP]
    show (match (quadPrim q0).intersect _ with
      | some h => scanP [] _ (some h) | none => scanP [] _ none).2.isSome = false
    simp only [quadPrim, hmiss2, scanP, Option.isSome_none]

/-- C3 counterexample — `Surface::intersect` takes the ray by `const`
reference: for the identity quad hit at `t = 5` the call returns true with
`hit.t = 5`, yet the caller-supplied ray is unchanged by the call and its
`maxt` is still `+∞`, not `hit.t`. -/
theorem intersect_does_not_set_caller_maxt :
    (q0.intersectFull r0 h00).1 = true ∧
    (q0.intersectFull r0 h00).2.t = 5 ∧
    r0.maxt ≠ (((q0.intersectFull r0 h00).2.t : ℝ) : RTop) := by
  refine ⟨?_, ?_, ?_⟩
  · simp only [Quad.intersectFull, q0_intersect_r0]
  · simp only [Quad.intersectFull, q0_intersect_r0]
  · simp only [Quad.intersectFull, q0_intersect_r0]
    show (⊤ : RTop) ≠ ((5 : ℝ) : RTop)
    simp

/-- C3 amended — the caller's ray is never mutated by `intersect` itself
(it is passed by const reference); instead the traversal loops of
`SurfaceGroup::intersect` and `BBHLeaf::intersect` shrink their local ray
copy, setting its `maxt` to `hit.t` after every successful child test, so
subsequent tests in the same traversal only accept closer hits: when the
scan reports a hit, the threaded ray's final `maxt` equals the reported
`hit.t`. -/
theorem scan_shrinks_local_ray_maxt (ps : List Prim) (r : Ray3) (h : HitInfo)
    (hs : (scanP ps r none).2 = some h) :
    (scanP ps r none).1.maxt = (h.t : RTop) := by
  rcases scanP_ray ps r none with h1 | ⟨h2, he2, hr2⟩
  · rw [h1] at hs
    cases hs
  · rw [he2] at hs
    cases hs
    rw [hr2]

/-- Witness for C3 amended: after scanning the single identity quad the
local ray's `maxt` has shrunk to the hit distance 5. -/
theorem scan_shrinks_local_ray_maxt_witness :
    (scanP [quadPrim q0] r0 none).1.maxt = ((5 : ℝ) : RTop) :=
  scan_shrinks_local_ray_maxt [quadPrim q0] r0
    ⟨5, ⟨0, 0, 0⟩, ⟨0, 0, 1⟩, ⟨0, 0, 1⟩, ⟨0, 0⟩, some 0⟩
    (by simp [scanP, quadPrim, q0_intersect_r0])

/-- C6 — `Quad::intersect` rejects rays parallel to the local plane
(`d.z = 0` after transforming to local space), rejects local hit points
outside the rectangle extents, rejects solved parameters outside
`[mint, maxt]`, and on every successful hit the reported position is the
world-space transform of the local hit point with its `z` snapped to
exactly 0. -/
theorem quad_intersect_rejects_and_snaps :
    (∀ (q : Quad) (r : Ray3), (q.tray r).d.z = 0 → q.intersect r = none) ∧
    (∀ (q : Quad) (r : Ray3),
      q.m_size.x < |((q.tray r).eval (q.tsolved r)).x| ∨
        q.m_size.y < |((q.tray r).eval (q.tsolved r)).y| →
      q.intersect r = none) ∧
    (∀ (q : Quad) (r : Ray3), (q.tray r).d.z ≠ 0 →
      q.tsolved r < (q.tray r).mint ∨ (q.tray r).maxt < (q.tsolved r : RTop) →
      q.intersect r = none) ∧
    (∀ (q : Quad) (r : Ray3) (h : HitInfo), q.intersect r = some h →
      h.p = q.xform.point
        ⟨((q.tray r).eval (q.tsolved r)).x, ((q.tray r).eval (q.tsolved r)).y, 0⟩) := by
  refine ⟨?_, ?_, ?_, ?_⟩
  · intro q r hdz
    simp only [Quad.intersect]
    rw [if_pos hdz]
  · intro q r hext
    simp only [Quad.intersect, Quad.tsolved] at hext ⊢
    by_cases hdz : (q.tray r).d.z = 0
    · rw [if_pos hdz]
    · rw [if_neg hdz, if_pos hext]
  · intro q r hdz hrange
    simp only [Quad.intersect, Quad.tsolved] at hrange ⊢
    rw [if_neg hdz]
    by_cases hext : q.m_size.x < |((q.tray r).eval (-(q.tray r).o.z / (q.tray r).d.z)).x| ∨
        q.m_size.y < |((q.tray r).eval (-(q.tray r).o.z / (q.tray r).d.z)).y|
    · rw [if_pos hext]
    · rw [if_neg hext, if_pos hrange]
  · intro q r h hq
    simp only [Quad.intersect, Quad.tsolved] at hq ⊢
    split at hq
    · cases hq
    · split at hq
      · cases hq
      · split at hq
        · cases hq
        · cases hq
          rfl

/-- Witness for C6: a parallel ray, a ray hitting the plane outside the
rectangle, a ray whose solved parameter exceeds `maxt`, and the snapped hit
position of the concrete hit at `t = 5`. -/
theorem quad_intersect_rejects_and_snaps_witness :
    q0.intersect (Ray3.mk' ⟨0, 0, 5⟩ ⟨1, 0, 0⟩) = none ∧
    q0.intersect (Ray3.mk' ⟨3, 0, 5⟩ ⟨0, 0, -1⟩) = none ∧
    q0.intersect ⟨⟨0, 0, 5⟩, ⟨0, 0, -1⟩, 1 / 10000, ((2 : ℝ) : RTop)⟩ = none ∧
    (⟨5, ⟨0, 0, 0⟩, ⟨0, 0, 1⟩, ⟨0, 0, 1⟩, ⟨0, 0⟩, some 0⟩ : HitInfo).p =
      q0.xform.point ⟨((q0.tray r0).eval (q0.tsolved r0)).x,
        ((q0.tray r0).eval (q0.tsolved r0)).y, 0⟩ := by
  refine ⟨?_, ?_, ?_, ?_⟩
  · refine quad_intersect_rejects_and_snaps.1 q0 (Ray3.mk' ⟨0, 0, 5⟩ ⟨1, 0, 0⟩) ?_
    rw [show q0.tray (Ray3.mk' ⟨0, 0, 5⟩ ⟨1, 0, 0⟩) =
      Ray3.mk' ⟨0, 0, 5⟩ ⟨1, 0, 0⟩ from ray_id _]
    rfl
  · refine quad_intersect_rejects_and_snaps.2.1 q0 (Ray3.mk' ⟨3, 0, 5⟩ ⟨0, 0, -1⟩)
      (Or.inl ?_)
    rw [show q0.tray (Ray3.mk' ⟨3, 0, 5⟩ ⟨0, 0, -1⟩) =
      Ray3.mk' ⟨3, 0, 5⟩ ⟨0, 0, -1⟩ from ray_id _]
    simp only [Quad.tsolved,
      show q0.tray (Ray3.mk' ⟨3, 0, 5⟩ ⟨0, 0, -1⟩) =
        Ray3.mk' ⟨3, 0, 5⟩ ⟨0, 0, -1⟩ from ray_id _]
    norm_num [Ray3.mk', Ray3.eval, Vec3.add, Vec3.smul, q0]
  · refine quad_intersect_rejects_and_snaps.2.2.1 q0
      ⟨⟨0, 0, 5⟩, ⟨0, 0, -1⟩, 1 / 10000, ((2 : ℝ) : RTop)⟩ ?_ (Or.inr ?_)
    · rw [show q0.tray ⟨⟨0, 0, 5⟩, ⟨0, 0, -1⟩, 1 / 10000, ((2 : ℝ) : RTop)⟩ =
        ⟨⟨0, 0, 5⟩, ⟨0, 0, -1⟩, 1 / 10000, ((2 : ℝ) : RTop)⟩ from ray_id _]
      norm_num
    · rw [show q0.tray ⟨⟨0, 0, 5⟩, ⟨0, 0, -1⟩, 1 / 10000, ((2 : ℝ) : RTop)⟩ =
        ⟨⟨0, 0, 5⟩, ⟨0, 0, -1⟩, 1 / 10000, ((2 : ℝ) : RTop)⟩ from ray_id _]
      simp only [Quad.tsolved,
        show q0.tray ⟨⟨0, 0, 5⟩, ⟨0, 0, -1⟩, 1 / 10000, ((2 : ℝ) : RTop)⟩ =
          ⟨⟨0, 0, 5⟩, ⟨0, 0, -1⟩, 1 / 10000, ((2 : ℝ) : RTop)⟩ from ray_id _]
      norm_num
      exact_mod_cast (by norm_num : (2 : ℝ) < 5)
  · exact quad_intersect_rejects_and_snaps.2.2.2 q0 r0
      ⟨5, ⟨0, 0, 0⟩, ⟨0, 0, 1⟩, ⟨0, 0, 1⟩, ⟨0, 0⟩, some 0⟩ q0_intersect_r0

/-- C10 — a ray constructed without an explicit interval has
`mint = 0.0001` and `maxt = +∞`; consequently `Quad::pdf`, which
re-intersects along the default-interval ray `Ray3f(o, v)`, returns 0
whenever the quad's plane point along `v` is closer than `0.0001`
(the solved parameter is below `mint`). -/
theorem default_ray_and_quad_pdf :
    (∀ o v : Vec3, (Ray3.mk' o v).mint = 1 / 10000 ∧ (Ray3.mk' o v).maxt = ⊤) ∧
    (∀ (q : Quad) (o v : Vec3), q.tsolved (Ray3.mk' o v) < 1 / 10000 →
      q.pdf o v = 0) := by
  refine ⟨fun o v => ⟨rfl, rfl⟩, ?_⟩
  intro q o v hlt
  have hnone : q.intersect (Ray3.mk' o v) = none := by
    simp only [Quad.tsolved] at hlt
    simp only [Quad.intersect]
    by_cases hdz : (q.tray (Ray3.mk' o v)).d.z = 0
    · rw [if_pos hdz]
    · rw [if_neg hdz]
      by_cases hext : q.m_size.x <
          |((q.tray (Ray3.mk' o v)).eval
            (-(q.tray (Ray3.mk' o v)).o.z / (q.tray (Ray3.mk' o v)).d.z)).x| ∨
          q.m_size.y <
          |((q.tray (Ray3.mk' o v)).eval
            (-(q.tray (Ray3.mk' o v)).o.z / (q.tray (Ray3.mk' o v)).d.z)).y|
      · rw [if_pos hext]
      · have hm : (q.tray (Ray3.mk' o v)).mint = 1 / 10000 := rfl
        rw [if_neg hext, if_pos (Or.inl (hm.symm ▸ hlt))]
  simp only [Quad.pdf, hnone]

/-- Witness for C10: the default interval of a concrete ray, and the pdf of
the identity quad from a point `0.00005` in front of it. -/
theorem default_ray_and_quad_pdf_witness :
    ((Ray3.mk' ⟨0, 0, 0⟩ ⟨0, 0, 1⟩).mint = 1 / 10000 ∧
      (Ray3.mk' ⟨0, 0, 0⟩ ⟨0, 0, 1⟩).maxt = ⊤) ∧
    q0.pdf ⟨0, 0, 1 / 20000⟩ ⟨0, 0, -1⟩ = 0 := by
  refine ⟨default_ray_and_quad_pdf.1 _ _, ?_⟩
  refine default_ray_and_quad_pdf.2 q0 ⟨0, 0, 1 / 20000⟩ ⟨0, 0, -1⟩ ?_
  simp only [Quad.tsolved,
    show q0.tray (Ray3.mk' ⟨0, 0, 1 / 20000⟩ ⟨0, 0, -1⟩) =
      Ray3.mk' ⟨0, 0, 1 / 20000⟩ ⟨0, 0, -1⟩ from ray_id _]
  norm_num [Ray3.mk']

/-- The identity transform maps any normal to its normalization. -/
theorem normal_id (v : Vec3) : Transform.idT.normal v = Vec3.normalize v := by
  have hm : (Mat44.id.transpose.mulV ⟨v.x, v.y, v.z, 0⟩).xyz = v := by
    cases v
    simp [Mat44.transpose, Mat44.id, Mat44.mulV, V4.smul, V4.add, V4.xyz]
  simp [Transform.normal, Transform.idT, hm]

/-- A vector of unit squared length is fixed by normalization. -/
theorem normalize_of_unit {v : Vec3} (h : Vec3.dot v v = 1) :
    Vec3.normalize v = v := by
  have hl : Vec3.length v = 1 := by
    rw [Vec3.length, Vec3.length2, h, Real.sqrt_one]
  rw [Vec3.normalize, hl]
  simp

/-- C7 — the unit sphere at the origin with the identity transform, hit by
the ray from `(-0.25, 0.5, 4)` towards `(0, 0, -1)`: the reported hit has
`t ≈ 3.170844`, position `≈ (-0.25, 0.5, 0.829156)` (within `1e-5`), and
its normals equal the hit point exactly. -/
theorem sphere_concrete_example :
    ∃ h, s0.intersect rs = some h ∧
      |h.t - 3.170844| < 1 / 100000 ∧
      |h.p.x - (-0.25)| < 1 / 100000 ∧
      |h.p.y - 0.5| < 1 / 100000 ∧
      |h.p.z - 0.829156| < 1 / 100000 ∧
      h.gn = h.p ∧ h.sn = h.p := by
  have hs1 : Real.sqrt (11 / 4) < 1.658332 := by
    rw [Real.sqrt_lt' (by norm_num : (0 : ℝ) < 1.658332)]
    norm_num
  have hs2 : (1.658292 : ℝ) < Real.sqrt (11 / 4) := by
    rw [Real.lt_sqrt (by norm_num : (0 : ℝ) ≤ 1.658292)]
    norm_num
  have htr : (s0.xform.inverse).ray rs = rs := ray_id rs
  have hdd : Vec3.dot rs.d rs.d = 1 := by norm_num [Vec3.dot, rs, Ray3.mk']
  have hb : 2 * Vec3.dot rs.o rs.d = -8 := by norm_num [Vec3.dot, rs, Ray3.mk']
  have hcc : Vec3.dot rs.o rs.o - s0.radius * s0.radius = 245 / 16 := by
    norm_num [Vec3.dot, rs, Ray3.mk', s0]
  have hkey : s0.intersect rs =
      some (Sphere.mkHit s0 rs ((8 - Real.sqrt (11 / 4)) / 2)) := by
    simp only [Sphere.intersect]
    rw [htr, hdd, hb, hcc]
    rw [show ((-8 : ℝ)) * (-8) - 4 * 1 * (245 / 16) = 11 / 4 by norm_num]
    rw [if_neg (by norm_num : ¬((11 / 4 : ℝ) < 0))]
    rw [if_pos ?hcond]
    case hcond =>
      constructor
      · show rs.mint ≤ _
        rw [show rs.mint = 1 / 10000 from rfl]
        nlinarith [hs1]
      · rw [show rs.maxt = ⊤ from rfl]
        exact le_top
    rw [show (-(-8 : ℝ) - Real.sqrt (11 / 4)) / (2 * 1) =
      (8 - Real.sqrt (11 / 4)) / 2 by norm_num]
  have hpl : rs.eval ((8 - Real.sqrt (11 / 4)) / 2) =
      ⟨-(1 / 4), 1 / 2, Real.sqrt (11 / 4) / 2⟩ := by
    simp only [rs, Ray3.mk', Ray3.eval, Vec3.add, Vec3.smul, Vec3.ext_iff]
    norm_num
    ring
  have hunit : Vec3.dot ⟨-(1 / 4), 1 / 2, Real.sqrt (11 / 4) / 2⟩
      ⟨-(1 / 4), 1 / 2, Real.sqrt (11 / 4) / 2⟩ = 1 := by
    have hsq : Real.sqrt (11 / 4) ^ 2 = 11 / 4 := Real.sq_sqrt (by norm_num)
    simp only [Vec3.dot]
    nlinarith [hsq]
  have hmk : Sphere.mkHit s0 rs ((8 - Real.sqrt (11 / 4)) / 2) =
      { t := (8 - Real.sqrt (11 / 4)) / 2
        p := ⟨-(1 / 4), 1 / 2, Real.sqrt (11 / 4) / 2⟩
        gn := ⟨-(1 / 4), 1 / 2, Real.sqrt (11 / 4) / 2⟩
        sn := ⟨-(1 / 4), 1 / 2, Real.sqrt (11 / 4) / 2⟩
        uv := ⟨0, 0⟩
        mat := some 0 } := by
    have hrad : s0.radius = 1 := rfl
    simp only [Sphere.mkHit, hpl, hrad, div_one]
    have hn : Transform.idT.normal ⟨-(1 / 4), 1 / 2, Real.sqrt (11 / 4) / 2⟩ =
        ⟨-(1 / 4), 1 / 2, Real.sqrt (11 / 4) / 2⟩ := by
      rw [normal_id]
      exact normalize_of_unit hunit
    have hxf : s0.xform = Transform.idT := rfl
    rw [hxf, point_id, hn, normalize_of_unit hunit]
    rfl
  refine ⟨_, hkey.trans (congrArg some hmk), ?_, ?_, ?_, ?_, rfl, rfl⟩
  · show |(8 - Real.sqrt (11 / 4)) / 2 - 3.170844| < 1 / 100000
    rw [abs_sub_lt_iff]
    constructor <;> [nlinarith [hs2]; nlinarith [hs1]]
  · show |(-(1 / 4) : ℝ) - (-0.25)| < 1 / 100000
    norm_num
  · show |(1 / 2 : ℝ) - 0.5| < 1 / 100000
    norm_num
  · show |Real.sqrt (11 / 4) / 2 - 0.829156| < 1 / 100000
    rw [abs_sub_lt_iff]
    constructor <;> [nlinarith [hs1]; nlinarith [hs2]]

end Darts
